import Mathlib

/-!
# The question gate of `js/gallery-protection.js`

A shallow embedding of the class `GalleryProtection`: the click handler of
`bindEvents`, `showProtectionDialog`, `showQuestionDialog`, the handlers bound
by `bindDialogEvents`, `checkAnswer` and `openGallery`, together with the
callbacks they pass to `setTimeout`.

Conventions of the embedding.

* `localStorage` is a finite list of key/value pairs of strings.
* The numbers the gate computes with are the values of `Num`: `NaN`, the two
  infinities, and the finite doubles which are integers.  Sums, differences and
  the results of `parseInt` are rounded to the nearest double, ties to even
  (`roundNat`, `Num.ofInt`); `numberToString` writes the shortest digits which
  read back as the same double, in exponent form from `1e21` on.  Minus zero is
  not told apart from zero: the script only compares, adds and prints it.
* `String.prototype.toLowerCase` is a field of the environment `Env`, next to
  the loaded configuration.
* The page holds at most one dialog element.  A dialog carries the question
  its handlers were bound to and a number telling the elements apart.
* A callback passed to `setTimeout` is a `Timer` waiting in the state; the
  event `Ev.timeout n` runs the `n`-th of them.  Callbacks which only restyle
  the page (the `show` class, the fading messages) and the navigation which
  `openGallery` schedules are left out.
* A handler which throws a `TypeError` yields `none`.
* What the user is shown is recorded as a list of `Out` values.
-/

namespace GalleryProtection

/-! ## Built-in functions of the language -/

/-- Code points of `WhiteSpace` and `LineTerminator`: what `trim` and
`parseInt` strip. -/
def whiteSpaceCodes : List Nat :=
  [0x09, 0x0A, 0x0B, 0x0C, 0x0D, 0x20, 0xA0, 0x1680,
   0x2000, 0x2001, 0x2002, 0x2003, 0x2004, 0x2005, 0x2006, 0x2007, 0x2008, 0x2009, 0x200A,
   0x2028, 0x2029, 0x202F, 0x205F, 0x3000, 0xFEFF]

/-- Whether a character is stripped by `trim`. -/
def isWhiteSpace (c : Char) : Bool :=
  whiteSpaceCodes.contains c.toNat

/-- The characters of `s.trim()`. -/
def trimChars (cs : List Char) : List Char :=
  ((cs.dropWhile isWhiteSpace).reverse.dropWhile isWhiteSpace).reverse

/-- The built-in `String.prototype.trim`. -/
def trim (s : String) : String :=
  String.mk (trimChars s.data)

/-- Value of a character as a digit in the given radix, if it is one. -/
def digitValue (radix : Nat) (c : Char) : Option Nat :=
  let n := c.toNat
  let v : Option Nat :=
    if 48 ≤ n ∧ n ≤ 57 then some (n - 48)
    else if 97 ≤ n ∧ n ≤ 122 then some (n - 87)
    else if 65 ≤ n ∧ n ≤ 90 then some (n - 55)
    else none
  match v with
  | some d => if d < radix then some d else none
  | none => none

/-- Digit values of the longest prefix made of digits of the radix. -/
def leadingDigits (radix : Nat) : List Char → List Nat
  | [] => []
  | c :: cs =>
    match digitValue radix c with
    | some d => d :: leadingDigits radix cs
    | none => []

/-- The number written by a list of digit values. -/
def ofDigitValues (radix : Nat) (ds : List Nat) : Nat :=
  ds.foldl (fun acc d => acc * radix + d) 0

/-- An optional sign in front: whether it is a minus, and the rest. -/
def stripSign : List Char → Bool × List Char
  | [] => (false, [])
  | c :: cs =>
    if c.toNat = 45 then (true, cs)
    else if c.toNat = 43 then (false, cs)
    else (false, c :: cs)

/-- An optional `0x` or `0X` in front: the radix, and the rest. -/
def stripHexMark : List Char → Nat × List Char
  | c :: d :: cs =>
    if c.toNat = 48 ∧ (d.toNat = 120 ∨ d.toNat = 88) then (16, cs) else (10, c :: d :: cs)
  | cs => (10, cs)

/-- The numbers of the script: `NaN`, the infinities and the finite doubles
with an integer value. -/
inductive Num where
  | nan
  | negInf
  | fin (v : Int)
  | posInf
deriving DecidableEq, Repr

/-- The power of two which is the spacing of the doubles around `a`: the
least `2 ^ j` with `a / 2 ^ j < 2 ^ 53`, searched from `u` on. -/
def ulpOf : Nat → Nat → Nat → Nat
  | 0, _, u => u
  | fuel + 1, a, u => if a / u < 2 ^ 53 then u else ulpOf fuel a (2 * u)

/-- Rounding of a natural number to 53 significant bits, to the nearest, ties
to the even significand. -/
def roundNat (a : Nat) : Nat :=
  let u := ulpOf a a 1
  let q := a / u
  let r := a % u
  if 2 * r < u ∨ (2 * r = u ∧ q % 2 = 0) then q * u else (q + 1) * u

/-- The double nearest to an integer; an infinity from `2 ^ 1024` on. -/
def Num.ofInt (z : Int) : Num :=
  let m := roundNat z.natAbs
  if (2 ^ 256) ^ 4 ≤ m then (if z < 0 then Num.negInf else Num.posInf)
  else Num.fin (if z < 0 then -(m : Int) else (m : Int))

/-- The built-in `parseInt(s)` with no radix argument: white space, a sign, a
hexadecimal mark, then the digits, read exactly and rounded to a double. -/
def parseInt (s : String) : Num :=
  let signed := stripSign (s.data.dropWhile isWhiteSpace)
  let body := stripHexMark signed.2
  match leadingDigits body.1 body.2 with
  | [] => Num.nan
  | d :: ds =>
    let m : Int := (ofDigitValues body.1 (d :: ds) : Nat)
    Num.ofInt (if signed.1 then -m else m)

/-- The digits `s` and the exponent `e` which `Number::toString` selects for
a positive double `a`: the largest power of ten `10 ^ e`, from the given one
down, with a multiple `s * 10 ^ e` which rounds to `a`; of two such multiples
the one nearer to `a`, and the even `s` when they are as near. -/
def shortest (a : Nat) : Nat → Nat × Nat
  | 0 => (a, 0)
  | e + 1 =>
    let p := 10 ^ (e + 1)
    let lo := a / p
    let hi := lo + 1
    let okLo : Bool := decide (lo ≠ 0 ∧ roundNat (lo * p) = a)
    let okHi : Bool := decide (roundNat (hi * p) = a)
    if okLo && okHi then
      (if a - lo * p < hi * p - a then (lo, e + 1)
       else if hi * p - a < a - lo * p then (hi, e + 1)
       else if lo % 2 = 0 then (lo, e + 1) else (hi, e + 1))
    else if okLo then (lo, e + 1)
    else if okHi then (hi, e + 1)
    else shortest a e

/-- The text of `Number::toString` for a double with a natural value: the
digits of `s` followed by `e` zeros, which is the decimal numeral of
`s * 10 ^ e`, when that has at most 21 digits, and the exponent form after
that. -/
def natToString (a : Nat) : String :=
  if a = 0 then "0"
  else
    let se := shortest a (Nat.toDigits 10 a).length
    let m := se.1 * 10 ^ se.2
    if m < 10 ^ 21 then Nat.repr m
    else
      let ds := Nat.toDigits 10 se.1
      let n := ds.length + se.2
      match ds with
      | [] => ""
      | [d] => String.mk [d] ++ "e+" ++ Nat.repr (n - 1)
      | d :: more => String.mk (d :: Char.ofNat 46 :: more) ++ "e+" ++ Nat.repr (n - 1)

/-- The built-in `Number.prototype.toString`. -/
def numberToString : Num → String
  | Num.nan => "NaN"
  | Num.posInf => "Infinity"
  | Num.negInf => "-Infinity"
  | Num.fin v => if v < 0 then "-" ++ natToString v.natAbs else natToString v.natAbs

/-- The comparison `a <= b` of two numbers: false when either is `NaN`. -/
def jsLe : Num → Num → Bool
  | Num.nan, _ => false
  | _, Num.nan => false
  | Num.negInf, _ => true
  | _, Num.posInf => true
  | Num.fin x, Num.fin y => decide (x ≤ y)
  | Num.fin _, Num.negInf => false
  | Num.posInf, Num.negInf => false
  | Num.posInf, Num.fin _ => false

/-- The comparison `a >= b` of two numbers: false when either is `NaN`. -/
def jsGe (a b : Num) : Bool :=
  jsLe b a

/-- The sum `a + b` of two numbers. -/
def jsAdd : Num → Num → Num
  | Num.nan, _ => Num.nan
  | _, Num.nan => Num.nan
  | Num.fin x, Num.fin y => Num.ofInt (x + y)
  | Num.posInf, Num.negInf => Num.nan
  | Num.negInf, Num.posInf => Num.nan
  | Num.posInf, _ => Num.posInf
  | _, Num.posInf => Num.posInf
  | Num.negInf, _ => Num.negInf
  | _, Num.negInf => Num.negInf

/-- The opposite `-a` of a number. -/
def jsNeg : Num → Num
  | Num.nan => Num.nan
  | Num.posInf => Num.negInf
  | Num.negInf => Num.posInf
  | Num.fin x => Num.fin (-x)

/-- The difference `a - b` of two numbers. -/
def jsSub (a b : Num) : Num :=
  jsAdd a (jsNeg b)

/-- The expression `v || d` on a value which is a string or `null`: the
default replaces `null` and the empty string. -/
def orDefault (v : Option String) (d : String) : String :=
  match v with
  | none => d
  | some s => if s = "" then d else s

/-! ## localStorage -/

/-- Content of `localStorage`. -/
abbrev Storage := List (String × String)

/-- The call `localStorage.getItem(key)`; `none` is `null`. -/
def getItem (st : Storage) (key : String) : Option String :=
  List.lookup key st

/-- The call `localStorage.removeItem(key)`. -/
def removeItem (st : Storage) (key : String) : Storage :=
  st.filter (fun p => p.1 != key)

/-- The call `localStorage.setItem(key, value)`. -/
def setItem (st : Storage) (key value : String) : Storage :=
  (key, value) :: removeItem st key

/-! ## Configuration, page state, events -/

/-- One entry of `questions` in `gallery-config.json`. -/
structure Question where
  question : String
  answer : String
  caseSensitive : Bool
deriving DecidableEq, Repr

/-- One entry of `categories` in `gallery-config.json`; `isProtected` is the
field `protected`, `questions = none` a category without that field, and
`maxAttempts` the integer written in the file, which the script holds as the
double `Num.ofInt maxAttempts`. -/
structure Category where
  name : String
  isProtected : Bool
  maxAttempts : Int
  questions : Option (List Question)
deriving DecidableEq, Repr

/-- What the script reads and never writes: `this.config.categories` and the
built-in `toLowerCase`. -/
structure Env where
  categories : String → Option Category
  toLowerCase : String → String

/-- A `.gallery-protection-dialog` element in the document. -/
structure Dialog where
  id : Nat
  question : Question
deriving DecidableEq, Repr

/-- A callback waiting in `setTimeout`. -/
inductive Timer where
  -- `dialog.remove()`, 300 ms after the dialog was closed or hidden
  | remove (dialog : Nat)
  -- hide the dialog, then `setTimeout(() => dialog.remove(), 300)`; scheduled for 2000 ms
  -- by the wrong answer which exhausts the attempts
  | hideThenRemove (dialog : Nat)
  -- `dialog.remove()`, then `this.openGallery(this.currentCategoryId)`; scheduled for 300 ms
  -- by the correct answer to the last question
  | removeThenOpen (dialog : Nat)
deriving DecidableEq, Repr

/-- State of the page and of the browser storage. `currentQuestionIndex` is
read only after `showProtectionDialog` has set it. -/
structure State where
  storage : Storage
  currentCategoryId : Option String
  currentQuestionIndex : Nat
  dialog : Option Dialog
  nextDialog : Nat
  timers : List Timer
deriving DecidableEq, Repr

/-- What the user is shown. -/
inductive Out where
  -- `showQuestionDialog(question)`
  | challengeReady (question : Question)
  -- `showDialogMessage` asking for an answer
  | provideAnswer
  -- `showDialogMessage` with the number of attempts left
  | incorrectAnswer (remaining : Num)
  -- `showDialogMessage` saying that the limit is reached and access is forbidden
  | lockedOut
  -- `showMessage` of `showProtectionDialog`: access forbidden, too many errors
  | accessDenied
  -- `openGallery(categoryId)`
  | accessGranted (categoryId : String)
deriving DecidableEq, Repr

/-- What can happen on the page. -/
inductive Ev where
  -- a click on the tile of a category (`requestAccess`)
  | click (categoryId : String)
  -- the submit button or the Enter key, with the content of the input (`submitAnswer`)
  | submit (raw : String)
  -- the close button or a click on the overlay (`abandon`)
  | close
  -- the timer at this position of `State.timers` runs
  | timeout (n : Nat)
deriving DecidableEq, Repr

/-- The page after loading, over a given storage. -/
def State.load (storage : Storage) : State :=
  { storage := storage, currentCategoryId := none, currentQuestionIndex := 0,
    dialog := none, nextDialog := 0, timers := [] }

/-! ## The methods of `GalleryProtection` -/

/-- Key of the flag of a category. -/
def accessKey (categoryId : String) : String :=
  "gallery_access_" ++ categoryId

/-- Key of the counter of a category. -/
def attemptsKey (categoryId : String) : String :=
  "gallery_attempts_" ++ categoryId

/-- The expression `parseInt(localStorage.getItem(attemptsKey) || "0")`. -/
def readAttempts (st : Storage) (categoryId : String) : Num :=
  parseInt (orDefault (getItem st (attemptsKey categoryId)) "0")

/-- The call `dialog.remove()`: the element leaves the document if it is in it. -/
def removeDialog (s : State) (dialog : Nat) : State :=
  match s.dialog with
  | some d => if d.id = dialog then { s with dialog := none } else s
  | none => s

/-- The method `openGallery(categoryId)`; reading `category.name` throws when there is no
such category. -/
def openGallery (env : Env) (s : State) (categoryId : Option String) :
    Option (State × List Out) :=
  match categoryId with
  | none => none
  | some c =>
    match env.categories c with
    | none => none
    | some _ => some (s, [Out.accessGranted c])

/-- The method `showQuestionDialog(question)`: a dialog in the document is removed, then a
new one is built, which throws on an undefined question, and appended. -/
def showQuestionDialog (s : State) (question : Option Question) :
    Option (State × List Out) :=
  match question with
  | none => none
  | some q =>
    some ({ s with dialog := some { id := s.nextDialog, question := q },
                   nextDialog := s.nextDialog + 1 },
          [Out.challengeReady q])

/-- The method `showProtectionDialog(categoryId)`. -/
def showProtectionDialog (env : Env) (s : State) (categoryId : String) :
    Option (State × List Out) :=
  match env.categories categoryId with
  | none => some (s, [])
  | some category =>
    match category.questions with
    | none => some (s, [])
    | some questions =>
      if getItem s.storage (accessKey categoryId) = some "granted" then
        openGallery env s (some categoryId)
      else
        let attempts := readAttempts s.storage categoryId
        if jsGe attempts (Num.ofInt category.maxAttempts) then
          some (s, [Out.accessDenied])
        else
          showQuestionDialog
            { s with currentCategoryId := some categoryId, currentQuestionIndex := 0 }
            questions[0]?

/-- The value of `isCorrect` in `checkAnswer`. -/
def isCorrect (env : Env) (question : Question) (userAnswer : String) : Bool :=
  if question.caseSensitive then decide (userAnswer = question.answer)
  else decide (env.toLowerCase userAnswer = env.toLowerCase question.answer)

/-- The method `checkAnswer(dialog, question)` with `raw` in the input of the dialog. -/
def checkAnswer (env : Env) (s : State) (dialog : Dialog) (raw : String) :
    Option (State × List Out) :=
  let userAnswer := trim raw
  if userAnswer = "" then some (s, [Out.provideAnswer])
  else if isCorrect env dialog.question userAnswer then
    match s.currentCategoryId with
    | none => none
    | some c =>
      match env.categories c with
      | none => none
      | some category =>
        let index := s.currentQuestionIndex + 1
        match category.questions with
        | none => none
        | some questions =>
          if questions.length ≤ index then
            some ({ s with
                    currentQuestionIndex := index,
                    storage := removeItem (setItem s.storage (accessKey c) "granted")
                                 (attemptsKey c),
                    timers := s.timers ++ [Timer.removeThenOpen dialog.id] }, [])
          else
            showQuestionDialog
              (removeDialog { s with currentQuestionIndex := index } dialog.id)
              questions[index]?
  else
    match s.currentCategoryId with
    | none => none
    | some c =>
      let attempts := jsAdd (readAttempts s.storage c) (Num.fin 1)
      let storage := setItem s.storage (attemptsKey c) (numberToString attempts)
      match env.categories c with
      | none => none
      | some category =>
        let remainingAttempts := jsSub (Num.ofInt category.maxAttempts) attempts
        if jsLe remainingAttempts (Num.fin 0) then
          some ({ s with storage := storage,
                         timers := s.timers ++ [Timer.hideThenRemove dialog.id] },
                [Out.lockedOut])
        else
          some ({ s with storage := storage }, [Out.incorrectAnswer remainingAttempts])

/-- The handler `closeDialog` of `bindDialogEvents`. -/
def closeDialog (s : State) (dialog : Dialog) : Option (State × List Out) :=
  some ({ s with timers := s.timers ++ [Timer.remove dialog.id] }, [])

/-- The click handler of `bindEvents` on the tile of a category. -/
def clickCategory (env : Env) (s : State) (categoryId : String) :
    Option (State × List Out) :=
  match env.categories categoryId with
  | none => none
  | some category =>
    if category.isProtected then showProtectionDialog env s categoryId
    else openGallery env s (some categoryId)

/-- A timer runs. -/
def fire (env : Env) (s : State) : Timer → Option (State × List Out)
  | Timer.remove d => some (removeDialog s d, [])
  | Timer.hideThenRemove d => some ({ s with timers := s.timers ++ [Timer.remove d] }, [])
  | Timer.removeThenOpen d =>
    let s1 := removeDialog s d
    openGallery env s1 s1.currentCategoryId

/-- One event; `none` when it cannot happen in this state or its handler
throws. -/
def step (env : Env) (s : State) : Ev → Option (State × List Out)
  | Ev.click c => clickCategory env s c
  | Ev.submit raw =>
    match s.dialog with
    | none => none
    | some d => checkAnswer env s d raw
  | Ev.close =>
    match s.dialog with
    | none => none
    | some d => closeDialog s d
  | Ev.timeout n =>
    match s.timers[n]? with
    | none => none
    | some t => fire env { s with timers := s.timers.eraseIdx n } t

/-- A sequence of events, with everything shown on the way. -/
def run (env : Env) (s : State) : List Ev → Option (State × List Out)
  | [] => some (s, [])
  | e :: es =>
    match step env s e with
    | none => none
    | some (s1, o1) =>
      match run env s1 es with
      | none => none
      | some (s2, o2) => some (s2, o1 ++ o2)

/-! ## A concrete page -/

/-- The question of the collection `family`. -/
def cityQuestion : Question :=
  { question := "What city?", answer := "Paris", caseSensitive := false }

/-- The collection `family`: three attempts, one question. -/
def familyCategory : Category :=
  { name := "Family", isProtected := true, maxAttempts := 3, questions := some [cityQuestion] }

/-- A page with the single collection `family`, lower case taken on ASCII
letters. -/
def familyEnv : Env :=
  { categories := fun c => if c = "family" then some familyCategory else none,
    toLowerCase := fun s => String.mk (s.data.map Char.toLower) }

/-! ## Decimal numerals -/

/-- A decimal digit character. -/
def IsDec (c : Char) : Prop := 48 ≤ c.toNat ∧ c.toNat ≤ 57

/-- The number written by a list of decimal digit characters. -/
def decVal (l : List Char) : Nat :=
  l.foldl (fun acc c => acc * 10 + (c.toNat - 48)) 0

/-! ## Predicates and values used in the statements -/

/-- While a dialog is open the current category is one with a list of questions. -/
def SessionOk (env : Env) (s : State) : Prop :=
  s.dialog ≠ none → ∃ c category questions, s.currentCategoryId = some c ∧
    env.categories c = some category ∧ category.questions = some questions

/-- The question is the one of the dialog, and it is the entry of the list of
the current category at the current index. -/
def Presented (env : Env) (s : State) (q : Question) : Prop :=
  ∃ c category questions, s.currentCategoryId = some c ∧ env.categories c = some category ∧
    category.questions = some questions ∧ s.currentQuestionIndex < questions.length ∧
    questions[s.currentQuestionIndex]? = some q ∧ s.dialog.map Dialog.question = some q

/-- Whether a message is the verdict on a wrong answer. -/
def isVerdict : Out → Bool
  | Out.incorrectAnswer _ => true
  | Out.lockedOut => true
  | _ => false

/-- The verdict the specification gives on a wrong answer which brings the
count of failed attempts to `attempts`. -/
def expectedVerdict (maxAttempts attempts : Int) : Out :=
  if attempts < maxAttempts then Out.incorrectAnswer (Num.fin (maxAttempts - attempts))
  else Out.lockedOut

/-- The events of sessions on one collection: clicks on its tile, closings,
timers, and answers of any kind. -/
def SessionEvent (c : String) (e : Ev) : Prop :=
  e = Ev.click c ∨ e = Ev.close ∨ (∃ n, e = Ev.timeout n) ∨ ∃ raw, e = Ev.submit raw

/-- Whether the event is a non-empty answer which is wrong for the question
of the open dialog. -/
def isWrongAnswer (env : Env) (s : State) : Ev → Bool
  | Ev.submit raw =>
    match s.dialog with
    | some d => decide (trim raw ≠ "") && !isCorrect env d.question (trim raw)
    | none => false
  | _ => false

/-- Number of non-empty wrong answers submitted along a run. -/
def wrongAnswers (env : Env) : State → List Ev → Nat
  | _, [] => 0
  | s, e :: es =>
    match step env s e with
    | none => 0
    | some (s1, _) => (if isWrongAnswer env s e then 1 else 0) + wrongAnswers env s1 es

/-- The stored count of the collection reads as the integer `k`, and the
dialog, if one is open, belongs to a session of the collection. -/
def Failing (c : String) (k : Int) (s : State) : Prop :=
  (s.dialog ≠ none → s.currentCategoryId = some c) ∧ readAttempts s.storage c = Num.fin k

/-- The page of `familyEnv` with the dialog of its question open. -/
def familyAsked (storage : Storage) : State :=
  { storage := storage, currentCategoryId := some "family", currentQuestionIndex := 0,
    dialog := some { id := 0, question := cityQuestion }, nextDialog := 1, timers := [] }

/-- The page of `familyEnv` after three wrong answers, the dialog still open. -/
def familyLocked : State :=
  { storage := [("gallery_attempts_family", "3")], currentCategoryId := some "family",
    currentQuestionIndex := 0, dialog := some { id := 0, question := cityQuestion },
    nextDialog := 1, timers := [Timer.hideThenRemove 0] }

/-- A collection which allows `2 ^ 53 + 2` attempts. -/
def patientCategory : Category :=
  { name := "Patient", isProtected := true, maxAttempts := 9007199254740994,
    questions := some [cityQuestion] }

/-- A page with the single collection `patient`. -/
def patientEnv : Env :=
  { categories := fun c => if c = "patient" then some patientCategory else none,
    toLowerCase := fun s => String.mk (s.data.map Char.toLower) }

/-- The page of `patientEnv` with the dialog of its question open. -/
def patientAsked (storage : Storage) : State :=
  { storage := storage, currentCategoryId := some "patient", currentQuestionIndex := 0,
    dialog := some { id := 0, question := cityQuestion }, nextDialog := 1, timers := [] }

/-- The second question of the collection `trip`. -/
def rangeQuestion : Question :=
  { question := "What range?", answer := "Alps", caseSensitive := true }

/-- The collection `trip`: two attempts, two questions. -/
def tripCategory : Category :=
  { name := "Trip", isProtected := true, maxAttempts := 2,
    questions := some [cityQuestion, rangeQuestion] }

/-- A page with the single collection `trip`. -/
def tripEnv : Env :=
  { categories := fun c => if c = "trip" then some tripCategory else none,
    toLowerCase := fun s => String.mk (s.data.map Char.toLower) }

/-- The page of `tripEnv` after a correct answer to the first question and two
wrong answers to the second, the dialog still open. -/
def tripLocked : State :=
  { storage := [("gallery_attempts_trip", "2")], currentCategoryId := some "trip",
    currentQuestionIndex := 1, dialog := some { id := 1, question := rangeQuestion },
    nextDialog := 2, timers := [Timer.hideThenRemove 1] }

/-! ## Storage -/

theorem getItem_setItem_self (st : Storage) (k v : String) :
    getItem (setItem st k v) k = some v := by
  simp [getItem, setItem, List.lookup]

theorem getItem_removeItem_self (st : Storage) (k : String) :
    getItem (removeItem st k) k = none := by
  induction st with
  | nil => rfl
  | cons p st ih =>
    obtain ⟨a, b⟩ := p
    by_cases h : a = k
    · simpa [removeItem, h, getItem] using ih
    · have h2 : (k == a) = false := by simpa using fun e => h e.symm
      simpa [removeItem, h, getItem, List.lookup, h2] using ih

theorem getItem_removeItem_of_ne (st : Storage) {k k2 : String} (h : k2 ≠ k) :
    getItem (removeItem st k) k2 = getItem st k2 := by
  induction st with
  | nil => rfl
  | cons p st ih =>
    obtain ⟨a, b⟩ := p
    by_cases ha : a = k
    · subst ha
      have h2 : (k2 == a) = false := by simpa using h
      simpa [removeItem, getItem, List.lookup, h2] using ih
    · by_cases hk : k2 = a
      · simp [removeItem, ha, getItem, List.lookup, hk]
      · have h2 : (k2 == a) = false := by simpa using hk
        simpa [removeItem, ha, getItem, List.lookup, h2] using ih

theorem getItem_setItem_of_ne (st : Storage) {k k2 : String} (v : String) (h : k2 ≠ k) :
    getItem (setItem st k v) k2 = getItem st k2 := by
  have h2 : (k2 == k) = false := by simpa using h
  have := getItem_removeItem_of_ne st h
  simpa [setItem, getItem, List.lookup, h2] using this

theorem accessKey_ne_attemptsKey (a b : String) : accessKey a ≠ attemptsKey b := by
  intro h
  have := congrArg String.data h
  simp [accessKey, attemptsKey] at this

/-! ## Rounding -/

theorem ulpOf_one_of_lt (fuel a : Nat) (h : a < 2 ^ 53) : ulpOf fuel a 1 = 1 := by
  cases fuel with
  | zero => rfl
  | succ f =>
    have h1 : a / 1 < 2 ^ 53 := by simpa using h
    simp only [ulpOf, h1, if_true]

theorem roundNat_of_lt {a : Nat} (h : a < 2 ^ 53) : roundNat a = a := by
  simp [roundNat, ulpOf_one_of_lt a a h, Nat.mod_one]

theorem roundNat_of_le {a : Nat} (h : a ≤ 2 ^ 53) : roundNat a = a := by
  rcases Nat.lt_or_ge a (2 ^ 53) with h1 | h1
  · exact roundNat_of_lt h1
  · have : a = 2 ^ 53 := Nat.le_antisymm h h1
    subst this
    decide

theorem ofInt_of_small (z : Int) (h : z.natAbs ≤ 2 ^ 53) : Num.ofInt z = Num.fin z := by
  have hlt : ¬ (2 ^ 256) ^ 4 ≤ z.natAbs := by
    have : (2 : Nat) ^ 53 < (2 ^ 256) ^ 4 := by norm_num
    omega
  simp only [Num.ofInt, roundNat_of_le h, hlt, if_false]
  congr 1
  split <;> omega

theorem ulpOf_bounds : ∀ (fuel a u : Nat), 0 < u → u ≤ a →
    0 < ulpOf fuel a u ∧ ulpOf fuel a u ≤ a
  | 0, _, _, h1, h2 => ⟨h1, h2⟩
  | fuel + 1, a, u, h1, h2 => by
    unfold ulpOf
    split
    · exact ⟨h1, h2⟩
    · next hge =>
      have h53 : 2 ^ 53 ≤ a / u := Nat.le_of_not_lt hge
      have h2u : 2 ≤ a / u := Nat.le_trans (by norm_num) h53
      have : 2 * u ≤ a := by
        have := (Nat.le_div_iff_mul_le h1).1 h2u
        omega
      exact ulpOf_bounds fuel a (2 * u) (by omega) this

theorem lt_two_mul_roundNat {m : Nat} (h : 0 < m) : m < 2 * roundNat m := by
  obtain ⟨hu, hle⟩ := ulpOf_bounds m m 1 (by decide) h
  have hq : 1 ≤ m / ulpOf m m 1 := (Nat.le_div_iff_mul_le hu).2 (by simpa using hle)
  have hdm := Nat.div_add_mod m (ulpOf m m 1)
  have hr := Nat.mod_lt m hu
  have hmul : ulpOf m m 1 ≤ m / ulpOf m m 1 * ulpOf m m 1 := Nat.le_mul_of_pos_left _ hq
  have hcomm : ulpOf m m 1 * (m / ulpOf m m 1) = m / ulpOf m m 1 * ulpOf m m 1 := Nat.mul_comm _ _
  unfold roundNat
  simp only
  split
  · omega
  · have : (m / ulpOf m m 1 + 1) * ulpOf m m 1
        = m / ulpOf m m 1 * ulpOf m m 1 + ulpOf m m 1 := by ring
    omega

theorem shortest_valid (a : Nat) (ha : roundNat a = a) :
    ∀ e, roundNat ((shortest a e).1 * 10 ^ (shortest a e).2) = a
  | 0 => by simpa [shortest] using ha
  | e + 1 => by
    unfold shortest
    simp only
    split
    · next h =>
      simp only [Bool.and_eq_true, decide_eq_true_eq] at h
      split
      · exact h.1.2
      · split
        · exact h.2
        · split
          · exact h.1.2
          · exact h.2
    · split
      · next h =>
        simp only [decide_eq_true_eq] at h
        exact h.2
      · split
        · next h =>
          simp only [decide_eq_true_eq] at h
          exact h
        · exact shortest_valid a ha e

theorem natToString_small {a : Nat} (h : a ≤ 2 ^ 53) :
    ∃ m, natToString a = Nat.repr m ∧ roundNat m = a := by
  by_cases h0 : a = 0
  · subst h0
    exact ⟨0, by decide, by decide⟩
  · have hv := shortest_valid a (roundNat_of_le h) (Nat.toDigits 10 a).length
    refine ⟨_, ?_, hv⟩
    have hpos : 0 < (shortest a (Nat.toDigits 10 a).length).1 *
        10 ^ (shortest a (Nat.toDigits 10 a).length).2 := by
      rcases Nat.eq_zero_or_pos ((shortest a (Nat.toDigits 10 a).length).1 *
        10 ^ (shortest a (Nat.toDigits 10 a).length).2) with hz | hz
      · rw [hz] at hv
        exact absurd hv.symm (by simpa [roundNat, ulpOf] using h0)
      · exact hz
    have hlt := lt_two_mul_roundNat hpos
    rw [hv] at hlt
    have hsmall : (shortest a (Nat.toDigits 10 a).length).1 *
        10 ^ (shortest a (Nat.toDigits 10 a).length).2 < 10 ^ 21 := by
      have : 2 * 2 ^ 53 < 10 ^ 21 := by norm_num
      omega
    simp only [natToString, h0, if_false, hsmall, if_true]

/-! ## Numbers written and read back -/

theorem digitChar_toNat {d : Nat} (h : d < 10) : (Nat.digitChar d).toNat = 48 + d := by
  interval_cases d <;> rfl

theorem isDec_digitChar {d : Nat} (h : d < 10) : IsDec (Nat.digitChar d) := by
  unfold IsDec
  rw [digitChar_toNat h]
  omega

theorem decVal_append_singleton (l : List Char) (c : Char) :
    decVal (l ++ [c]) = decVal l * 10 + (c.toNat - 48) := by
  simp [decVal, List.foldl_append]

theorem toDigitsCore_spec : ∀ (fuel n : Nat) (ds : List Char), n < fuel →
    ∃ pre, Nat.toDigitsCore 10 fuel n ds = pre ++ ds ∧ pre ≠ [] ∧
      (∀ c ∈ pre, IsDec c) ∧ decVal pre = n := by
  intro fuel
  induction fuel with
  | zero => intro n ds h; omega
  | succ fuel ih =>
    intro n ds h
    have hd : n % 10 < 10 := Nat.mod_lt _ (by decide)
    by_cases h0 : n / 10 = 0
    · refine ⟨[Nat.digitChar (n % 10)], ?_, by simp, ?_, ?_⟩
      · simp [Nat.toDigitsCore, h0]
      · intro c hc
        simp at hc
        subst hc
        exact isDec_digitChar hd
      · simp [decVal, digitChar_toNat hd]
        omega
    · have hlt : n / 10 < fuel := by omega
      obtain ⟨pre, h1, _, h3, h4⟩ := ih (n / 10) (Nat.digitChar (n % 10) :: ds) hlt
      refine ⟨pre ++ [Nat.digitChar (n % 10)], ?_, by simp, ?_, ?_⟩
      · simp [Nat.toDigitsCore, h0, h1]
      · intro c hc
        rcases List.mem_append.1 hc with hc | hc
        · exact h3 c hc
        · simp at hc
          subst hc
          exact isDec_digitChar hd
      · rw [decVal_append_singleton, h4, digitChar_toNat hd]
        omega

theorem repr_spec (n : Nat) :
    (Nat.repr n).data ≠ [] ∧ (∀ c ∈ (Nat.repr n).data, IsDec c) ∧ decVal (Nat.repr n).data = n := by
  obtain ⟨pre, h1, h2, h3, h4⟩ := toDigitsCore_spec (n + 1) n [] (Nat.lt_succ_self n)
  have : (Nat.repr n).data = pre := by
    simp [Nat.repr, Nat.toDigits, h1, List.asString]
  rw [this]
  exact ⟨h2, h3, h4⟩

theorem digitValue_of_isDec {c : Char} (h : IsDec c) : digitValue 10 c = some (c.toNat - 48) := by
  obtain ⟨h1, h2⟩ := h
  have h3 : c.toNat - 48 < 10 := by omega
  simp [digitValue, h1, h2, h3]

theorem leadingDigits_of_isDec : ∀ (l : List Char), (∀ c ∈ l, IsDec c) →
    leadingDigits 10 l = l.map (fun c => c.toNat - 48)
  | [], _ => rfl
  | c :: l, h => by
    have hc := digitValue_of_isDec (h c (List.mem_cons_self _ _))
    have := leadingDigits_of_isDec l (fun x hx => h x (List.mem_cons_of_mem _ hx))
    simp [leadingDigits, hc, this]

theorem ofDigitValues_of_isDec (l : List Char) (h : ∀ c ∈ l, IsDec c) :
    ofDigitValues 10 (leadingDigits 10 l) = decVal l := by
  rw [leadingDigits_of_isDec l h]
  simp [ofDigitValues, decVal, List.foldl_map]

theorem isWhiteSpace_of_isDec {c : Char} (h : IsDec c) : isWhiteSpace c = false := by
  obtain ⟨h1, h2⟩ := h
  simp [isWhiteSpace, whiteSpaceCodes]
  omega

/-- Reading a non-empty run of decimal digits, with or without a minus sign. -/
theorem parseDigits (l : List Char) (hne : l ≠ []) (h : ∀ c ∈ l, IsDec c) :
    stripHexMark l = (10, l) ∧ stripSign l = (false, l) ∧
      l.dropWhile isWhiteSpace = l := by
  match l, hne, h with
  | [c], _, h =>
    have hc := h c (List.mem_cons_self _ _)
    have hw := isWhiteSpace_of_isDec hc
    obtain ⟨h1, h2⟩ := hc
    refine ⟨rfl, ?_, ?_⟩
    · have a1 : c.toNat ≠ 45 := by omega
      have a2 : c.toNat ≠ 43 := by omega
      simp [stripSign, a1, a2]
    · simp [List.dropWhile, hw]
  | c :: d :: l, _, h =>
    have hc := h c (List.mem_cons_self _ _)
    have hd := h d (List.mem_cons_of_mem _ (List.mem_cons_self _ _))
    have hw := isWhiteSpace_of_isDec hc
    obtain ⟨h1, h2⟩ := hc
    obtain ⟨h3, h4⟩ := hd
    refine ⟨?_, ?_, ?_⟩
    · have a1 : d.toNat ≠ 120 := by omega
      have a2 : d.toNat ≠ 88 := by omega
      simp [stripHexMark, a1, a2]
    · have a1 : c.toNat ≠ 45 := by omega
      have a2 : c.toNat ≠ 43 := by omega
      simp [stripSign, a1, a2]
    · simp [List.dropWhile, hw]

theorem parseInt_of_digits (s : String) (neg : Bool) (l : List Char)
    (hs : stripSign (s.data.dropWhile isWhiteSpace) = (neg, l)) (hne : l ≠ [])
    (h : ∀ c ∈ l, IsDec c) :
    parseInt s = Num.ofInt (if neg then -(decVal l : Int) else (decVal l : Int)) := by
  obtain ⟨p1, _, _⟩ := parseDigits l hne h
  have hv := ofDigitValues_of_isDec l h
  have hp := leadingDigits_of_isDec l h
  unfold parseInt
  rw [hs]
  simp only [p1]
  cases hl : leadingDigits 10 l with
  | nil =>
    rw [hp] at hl
    simp at hl
    exact absurd hl hne
  | cons d ds =>
    simp only [← hl, hv]

theorem parseInt_repr (n : Nat) : parseInt (Nat.repr n) = Num.ofInt (n : Int) := by
  obtain ⟨h1, h2, h3⟩ := repr_spec n
  obtain ⟨_, p2, p3⟩ := parseDigits _ h1 h2
  have := parseInt_of_digits (Nat.repr n) false _ (by rw [p3, p2]) h1 h2
  simpa [h3] using this

theorem parseInt_neg_repr (n : Nat) :
    parseInt ("-" ++ Nat.repr n) = Num.ofInt (-(n : Int)) := by
  obtain ⟨h1, h2, h3⟩ := repr_spec n
  have hdata : ("-" ++ Nat.repr n).data = (Char.ofNat 45) :: (Nat.repr n).data := by
    simp [String.data_append]
  have hw : isWhiteSpace (Char.ofNat 45) = false := by decide
  have hs : stripSign (("-" ++ Nat.repr n).data.dropWhile isWhiteSpace)
      = (true, (Nat.repr n).data) := by
    rw [hdata]
    simp [List.dropWhile, hw, stripSign]
  have := parseInt_of_digits _ true _ hs h1 h2
  rw [this, h3]
  simp

theorem ofInt_of_roundNat {m a : Nat} (hm : roundNat m = a) (ha : a ≤ 2 ^ 53) :
    Num.ofInt (m : Int) = Num.fin (a : Int) ∧ Num.ofInt (-(m : Int)) = Num.fin (-(a : Int)) := by
  have hlt : ¬ (2 ^ 256) ^ 4 ≤ a := by
    have : (2 : Nat) ^ 53 < (2 ^ 256) ^ 4 := by norm_num
    omega
  constructor
  · have hneg : ¬ ((m : Int) < 0) := by omega
    have hna : (m : Int).natAbs = m := Int.natAbs_ofNat m
    simp only [Num.ofInt, hna, hm, hlt, hneg, if_false]
  · by_cases h0 : m = 0
    · subst h0
      have : a = 0 := by
        rw [← hm]
        decide
      subst this
      decide
    · have hneg : -(m : Int) < 0 := by omega
      have hna : (-(m : Int)).natAbs = m := by simp
      simp only [Num.ofInt, hna, hm, hlt, hneg, if_true, if_false]

/-- Within `2 ^ 53` of zero a number is read back as it was written. -/
theorem parseInt_numberToString (v : Int) (h : v.natAbs ≤ 2 ^ 53) :
    parseInt (numberToString (Num.fin v)) = Num.fin v := by
  obtain ⟨m, hstr, hm⟩ := natToString_small h
  obtain ⟨hpos, hneg⟩ := ofInt_of_roundNat hm h
  by_cases hv : v < 0
  · simp only [numberToString, hv, if_true, hstr, parseInt_neg_repr, hneg]
    congr 1
    omega
  · simp only [numberToString, hv, if_false, hstr, parseInt_repr, hpos]
    congr 1
    omega

theorem numberToString_ne_empty (v : Int) (h : v.natAbs ≤ 2 ^ 53) :
    numberToString (Num.fin v) ≠ "" := by
  obtain ⟨m, hstr, _⟩ := natToString_small h
  intro hcon
  have hd := congrArg String.data hcon
  by_cases hv : v < 0
  · simp [numberToString, hv, String.data_append] at hd
  · simp only [numberToString, hv, if_false, hstr] at hd
    exact (repr_spec m).1 hd

theorem readAttempts_setItem (st : Storage) (c : String) (v : Int) (h : v.natAbs ≤ 2 ^ 53) :
    readAttempts (setItem st (attemptsKey c) (numberToString (Num.fin v))) c = Num.fin v := by
  unfold readAttempts
  rw [getItem_setItem_self]
  simp only [orDefault, numberToString_ne_empty v h, if_false]
  exact parseInt_numberToString v h

theorem trim_of_blank (raw : String) (h : ∀ ch ∈ raw.data, isWhiteSpace ch = true) :
    trim raw = "" := by
  have h1 : raw.data.dropWhile isWhiteSpace = [] := by
    rw [List.dropWhile_eq_nil_iff]
    exact h
  simp [trim, trimChars, h1]

theorem readAttempts_absent (st : Storage) (c : String)
    (h : getItem st (attemptsKey c) = none) : readAttempts st c = Num.fin 0 := by
  unfold readAttempts
  rw [h]
  decide

/-- Claim C7. For a protected collection with a list of questions whose flag
`gallery_access_<id>` holds `granted`, a click on its tile calls `openGallery`
(accessGranted), opens no dialog and leaves the whole state, the storage
included, as it was; nothing is assumed on the stored count of failed
attempts. -/
theorem granted_bypasses_challenge (env : Env) (s : State) (c : String) (category : Category)
    (questions : List Question)
    (hcat : env.categories c = some category) (hprot : category.isProtected = true)
    (hq : category.questions = some questions)
    (hgranted : getItem s.storage (accessKey c) = some "granted") :
    step env s (Ev.click c) = some (s, [Out.accessGranted c]) := by
  simp [step, clickCategory, hcat, hprot, showProtectionDialog, hq, hgranted, openGallery]

theorem granted_bypasses_challenge_witness :
    step familyEnv (State.load [("gallery_attempts_family", "7"), ("gallery_access_family", "granted")])
        (Ev.click "family")
      = some (State.load [("gallery_attempts_family", "7"), ("gallery_access_family", "granted")],
          [Out.accessGranted "family"]) :=
  granted_bypasses_challenge familyEnv _ "family" familyCategory [cityQuestion]
    (by decide) (by decide) (by decide) (by decide)

/-- Claim C6. With a dialog open, an input which is empty or made of white space
only is answered by the request to provide an answer, and the state after the
call is the state before it: storage, current question index and dialog. -/
theorem blank_answer_rejected (env : Env) (s : State) (d : Dialog) (raw : String)
    (hd : s.dialog = some d) (hblank : ∀ ch ∈ raw.data, isWhiteSpace ch = true) :
    step env s (Ev.submit raw) = some (s, [Out.provideAnswer]) := by
  simp [step, hd, checkAnswer, trim_of_blank raw hblank]

/-! ## The outcomes of one answer -/

theorem step_submit_grant (env : Env) (s : State) (d : Dialog) (c : String)
    (category : Category) (questions : List Question) (raw : String)
    (hd : s.dialog = some d) (hc : s.currentCategoryId = some c)
    (hcat : env.categories c = some category) (hq : category.questions = some questions)
    (hne : trim raw ≠ "") (hok : isCorrect env d.question (trim raw) = true)
    (hlast : questions.length ≤ s.currentQuestionIndex + 1) :
    step env s (Ev.submit raw) =
      some ({ s with
              currentQuestionIndex := s.currentQuestionIndex + 1,
              storage := removeItem (setItem s.storage (accessKey c) "granted") (attemptsKey c),
              timers := s.timers ++ [Timer.removeThenOpen d.id] }, []) := by
  simp only [step, hd, checkAnswer, hne, if_false, hok, if_true, hc, hcat, hq, hlast]

theorem step_submit_next (env : Env) (s : State) (d : Dialog) (c : String)
    (category : Category) (questions : List Question) (raw : String)
    (hd : s.dialog = some d) (hc : s.currentCategoryId = some c)
    (hcat : env.categories c = some category) (hq : category.questions = some questions)
    (hne : trim raw ≠ "") (hok : isCorrect env d.question (trim raw) = true)
    (hlt : s.currentQuestionIndex + 1 < questions.length) :
    step env s (Ev.submit raw) =
      some ({ s with
              currentQuestionIndex := s.currentQuestionIndex + 1,
              dialog := some { id := s.nextDialog, question := questions[s.currentQuestionIndex + 1] },
              nextDialog := s.nextDialog + 1 },
            [Out.challengeReady questions[s.currentQuestionIndex + 1]]) := by
  have hlast : ¬ questions.length ≤ s.currentQuestionIndex + 1 := by omega
  have hget : questions[s.currentQuestionIndex + 1]? =
      some (questions[s.currentQuestionIndex + 1]) := List.getElem?_eq_getElem hlt
  simp only [step, hd, checkAnswer, hne, if_false, hok, if_true, hc, hcat, hq, hlast,
    hget, showQuestionDialog, removeDialog]

theorem step_submit_wrong (env : Env) (s : State) (d : Dialog) (c : String)
    (category : Category) (raw : String)
    (hd : s.dialog = some d) (hc : s.currentCategoryId = some c)
    (hcat : env.categories c = some category)
    (hne : trim raw ≠ "") (hwrong : isCorrect env d.question (trim raw) = false) :
    step env s (Ev.submit raw) =
      if jsLe (jsSub (Num.ofInt category.maxAttempts) (jsAdd (readAttempts s.storage c) (Num.fin 1)))
          (Num.fin 0) = true then
        some ({ s with
                storage := setItem s.storage (attemptsKey c)
                  (numberToString (jsAdd (readAttempts s.storage c) (Num.fin 1))),
                timers := s.timers ++ [Timer.hideThenRemove d.id] }, [Out.lockedOut])
      else
        some ({ s with
                storage := setItem s.storage (attemptsKey c)
                  (numberToString (jsAdd (readAttempts s.storage c) (Num.fin 1))) },
              [Out.incorrectAnswer
                (jsSub (Num.ofInt category.maxAttempts) (jsAdd (readAttempts s.storage c) (Num.fin 1)))]) := by
  simp only [step, hd, checkAnswer, hne, if_false, hwrong, hc, hcat]
  simp

theorem isCorrect_iff (env : Env) (q : Question) (a : String) :
    isCorrect env q a = true ↔
      (if q.caseSensitive = true then a = q.answer
        else env.toLowerCase a = env.toLowerCase q.answer) := by
  unfold isCorrect
  split <;> simp

/-- Claim C3. With a dialog open on a question of the current category and an
input whose trimmed form is not empty, `checkAnswer` runs, and it takes the
input for correct exactly when the trimmed input equals the configured answer
(case-sensitive question) or their lower-case forms are equal (otherwise).  A
correct input advances the question index by one, shows no verdict of failure
and leaves the storage alone or records the grant; any other input keeps the
index, shows lockedOut or incorrectAnswer and writes the incremented count. -/
theorem answer_comparison (env : Env) (s : State) (d : Dialog) (c : String)
    (category : Category) (questions : List Question) (raw : String)
    (hd : s.dialog = some d) (hc : s.currentCategoryId = some c)
    (hcat : env.categories c = some category) (hq : category.questions = some questions)
    (hne : trim raw ≠ "") :
    ∃ s1 outs, step env s (Ev.submit raw) = some (s1, outs) ∧
      ((if d.question.caseSensitive = true then trim raw = d.question.answer
          else env.toLowerCase (trim raw) = env.toLowerCase d.question.answer) →
        s1.currentQuestionIndex = s.currentQuestionIndex + 1 ∧
        Out.lockedOut ∉ outs ∧ (∀ r, Out.incorrectAnswer r ∉ outs) ∧
        (s1.storage = s.storage ∨
          s1.storage = removeItem (setItem s.storage (accessKey c) "granted") (attemptsKey c))) ∧
      (¬ (if d.question.caseSensitive = true then trim raw = d.question.answer
          else env.toLowerCase (trim raw) = env.toLowerCase d.question.answer) →
        s1.currentQuestionIndex = s.currentQuestionIndex ∧
        (outs = [Out.lockedOut] ∨ ∃ r, outs = [Out.incorrectAnswer r]) ∧
        s1.storage = setItem s.storage (attemptsKey c)
          (numberToString (jsAdd (readAttempts s.storage c) (Num.fin 1)))) := by
  rw [← isCorrect_iff]
  by_cases hok : isCorrect env d.question (trim raw) = true
  · by_cases hlast : questions.length ≤ s.currentQuestionIndex + 1
    · rw [step_submit_grant env s d c category questions raw hd hc hcat hq hne hok hlast]
      exact ⟨_, _, rfl, fun _ => by simp, fun h => absurd hok h⟩
    · rw [step_submit_next env s d c category questions raw hd hc hcat hq hne hok (by omega)]
      exact ⟨_, _, rfl, fun _ => by simp, fun h => absurd hok h⟩
  · have hwrong : isCorrect env d.question (trim raw) = false := by simpa using hok
    rw [step_submit_wrong env s d c category raw hd hc hcat hne hwrong]
    split
    · exact ⟨_, _, rfl, fun h => absurd h hok, fun _ => by simp⟩
    · exact ⟨_, _, rfl, fun h => absurd h hok, fun _ => by simp⟩

/-! ## Exact arithmetic within `2 ^ 53` of zero -/

theorem jsAdd_fin_one (k : Int) (h : (k + 1).natAbs ≤ 2 ^ 53) :
    jsAdd (Num.fin k) (Num.fin 1) = Num.fin (k + 1) := by
  simp only [jsAdd, ofInt_of_small (k + 1) h]

theorem jsSub_ofInt_fin (m n : Int) (hm : m.natAbs ≤ 2 ^ 53) (hd : (m - n).natAbs ≤ 2 ^ 53) :
    jsSub (Num.ofInt m) (Num.fin n) = Num.fin (m - n) := by
  have : m + -n = m - n := by omega
  simp only [jsSub, jsNeg, ofInt_of_small m hm, jsAdd, this, ofInt_of_small (m - n) hd]

theorem jsLe_fin (x y : Int) : jsLe (Num.fin x) (Num.fin y) = decide (x ≤ y) := rfl

/-- Claim C8, as amended. With a dialog open, whatever the current question
index, and a stored count of failed attempts which reads as the number `k`,
where `k + 1`, `maxAttempts` and `maxAttempts - (k + 1)` lie within `2 ^ 53` of
zero: a non-empty incorrect answer stores `k + 1`, leaves the access flag as it
was, and, when `maxAttempts - (k + 1)` is positive, shows incorrectAnswer with
that number and keeps the question index, the dialog and the current
category. -/
theorem wrong_answer_counts (env : Env) (s : State) (d : Dialog) (c : String)
    (category : Category) (raw : String) (k : Int)
    (hd : s.dialog = some d) (hc : s.currentCategoryId = some c)
    (hcat : env.categories c = some category)
    (hk : readAttempts s.storage c = Num.fin k)
    (hk1 : (k + 1).natAbs ≤ 2 ^ 53) (hmax : category.maxAttempts.natAbs ≤ 2 ^ 53)
    (hrem : (category.maxAttempts - (k + 1)).natAbs ≤ 2 ^ 53)
    (hne : trim raw ≠ "") (hwrong : isCorrect env d.question (trim raw) = false) :
    ∃ s1 outs, step env s (Ev.submit raw) = some (s1, outs) ∧
      getItem s1.storage (attemptsKey c) = some (numberToString (Num.fin (k + 1))) ∧
      readAttempts s1.storage c = Num.fin (k + 1) ∧
      getItem s1.storage (accessKey c) = getItem s.storage (accessKey c) ∧
      (0 < category.maxAttempts - (k + 1) →
        outs = [Out.incorrectAnswer (Num.fin (category.maxAttempts - (k + 1)))] ∧
        s1.currentQuestionIndex = s.currentQuestionIndex ∧ s1.dialog = s.dialog ∧
        s1.currentCategoryId = s.currentCategoryId) := by
  rw [step_submit_wrong env s d c category raw hd hc hcat hne hwrong, hk,
    jsAdd_fin_one k hk1, jsSub_ofInt_fin _ _ hmax hrem, jsLe_fin]
  have hacc := getItem_setItem_of_ne s.storage (numberToString (Num.fin (k + 1)))
    (accessKey_ne_attemptsKey c c)
  have hread := readAttempts_setItem s.storage c (k + 1) hk1
  split
  · next hlock =>
    refine ⟨_, _, rfl, getItem_setItem_self _ _ _, hread, hacc, ?_⟩
    intro hpos
    simp only [decide_eq_true_eq] at hlock
    omega
  · exact ⟨_, _, rfl, getItem_setItem_self _ _ _, hread, hacc, fun _ => ⟨rfl, rfl, rfl, rfl⟩⟩

theorem wrong_answer_counts_witness :
    ∃ s1 outs, step familyEnv (familyAsked [("gallery_attempts_family", "1")]) (Ev.submit "Rome")
        = some (s1, outs) ∧
      getItem s1.storage (attemptsKey "family") = some (numberToString (Num.fin (1 + 1))) ∧
      readAttempts s1.storage "family" = Num.fin (1 + 1) ∧
      getItem s1.storage (accessKey "family")
        = getItem (familyAsked [("gallery_attempts_family", "1")]).storage (accessKey "family") ∧
      (0 < familyCategory.maxAttempts - (1 + 1) →
        outs = [Out.incorrectAnswer (Num.fin (familyCategory.maxAttempts - (1 + 1)))] ∧
        s1.currentQuestionIndex
          = (familyAsked [("gallery_attempts_family", "1")]).currentQuestionIndex ∧
        s1.dialog = (familyAsked [("gallery_attempts_family", "1")]).dialog ∧
        s1.currentCategoryId
          = (familyAsked [("gallery_attempts_family", "1")]).currentCategoryId) :=
  wrong_answer_counts familyEnv (familyAsked [("gallery_attempts_family", "1")])
    { id := 0, question := cityQuestion } "family" familyCategory "Rome" 1
    (by decide) (by decide) (by decide) (by decide) (by decide) (by decide) (by decide)
    (by decide) (by decide)

/-- Claim C8, as stated, fails on the code. Collection `patient` with
`2 ^ 53 + 2` attempts and the stored count `9007199254740992`, which is
`2 ^ 53`: a wrong answer stores the same count again, since `2 ^ 53 + 1` is
not a double, and shows 2 attempts left where the claim has
`maxAttempts - (k + 1) = 1`. -/
theorem wrong_answer_beyond_exact_range :
    readAttempts (patientAsked [("gallery_attempts_patient", "9007199254740992")]).storage
        "patient" = Num.fin 9007199254740992 ∧
    step patientEnv (patientAsked [("gallery_attempts_patient", "9007199254740992")])
        (Ev.submit "Rome")
      = some (patientAsked [("gallery_attempts_patient", "9007199254740992")],
          [Out.incorrectAnswer (Num.fin 2)]) ∧
    Num.fin 9007199254740992 ≠ Num.fin (9007199254740992 + 1) ∧
    Num.fin 2 ≠ Num.fin (patientCategory.maxAttempts - (9007199254740992 + 1)) := by
  decide

/-! ## The outcomes of a click on a protected tile -/

theorem step_click_challenge (env : Env) (s : State) (c : String) (category : Category)
    (q0 : Question) (rest : List Question)
    (hcat : env.categories c = some category) (hprot : category.isProtected = true)
    (hq : category.questions = some (q0 :: rest))
    (hng : getItem s.storage (accessKey c) ≠ some "granted")
    (hnl : jsGe (readAttempts s.storage c) (Num.ofInt category.maxAttempts) = false) :
    step env s (Ev.click c) =
      some ({ s with
              currentCategoryId := some c,
              currentQuestionIndex := 0,
              dialog := some { id := s.nextDialog, question := q0 },
              nextDialog := s.nextDialog + 1 }, [Out.challengeReady q0]) := by
  simp [step, clickCategory, hcat, hprot, showProtectionDialog, hq, hng, hnl, showQuestionDialog]

theorem step_click_denied (env : Env) (s : State) (c : String) (category : Category)
    (questions : List Question)
    (hcat : env.categories c = some category) (hprot : category.isProtected = true)
    (hq : category.questions = some questions)
    (hng : getItem s.storage (accessKey c) ≠ some "granted")
    (hl : jsGe (readAttempts s.storage c) (Num.ofInt category.maxAttempts) = true) :
    step env s (Ev.click c) = some (s, [Out.accessDenied]) := by
  simp [step, clickCategory, hcat, hprot, showProtectionDialog, hq, hng, hl]

theorem run_cons (env : Env) (s s1 : State) (e : Ev) (es : List Ev) (o1 : List Out)
    (h : step env s e = some (s1, o1)) :
    run env s (e :: es) = (run env s1 es).map (fun r => (r.1, o1 ++ r.2)) := by
  simp only [run, h]
  cases run env s1 es with
  | none => rfl
  | some r => rfl

theorem run_single (env : Env) (s s1 : State) (e : Ev) (o1 : List Out)
    (h : step env s e = some (s1, o1)) : run env s [e] = some (s1, o1) := by
  simp [run, h]

theorem step_timeout_last (env : Env) (s : State) (t : Timer) :
    step env { s with timers := s.timers ++ [t] } (Ev.timeout s.timers.length) = fire env s t := by
  simp only [step, List.getElem?_concat_length,
    List.eraseIdx_append_of_length_le (Nat.le_refl _), Nat.sub_self, List.eraseIdx_cons_zero,
    List.append_nil]

/-- Claim C9. For a collection neither granted nor locked, and a dialog open at
whatever question index, closing the dialog leaves the storage as it was, and
a following click on the tile of the collection, before or after the removal
timer of the closed dialog has run, presents the first question of the list
with the question index at 0, the storage still unchanged. -/
theorem abandon_restarts (env : Env) (s : State) (d : Dialog) (c : String)
    (category : Category) (q0 : Question) (rest : List Question)
    (hd : s.dialog = some d)
    (hcat : env.categories c = some category) (hprot : category.isProtected = true)
    (hq : category.questions = some (q0 :: rest))
    (hng : getItem s.storage (accessKey c) ≠ some "granted")
    (hnl : jsGe (readAttempts s.storage c) (Num.ofInt category.maxAttempts) = false) :
    ∃ s1, step env s Ev.close = some (s1, []) ∧ s1.storage = s.storage ∧
      ∀ mid, mid = [] ∨ mid = [Ev.timeout s.timers.length] →
        ∃ s2, run env s1 (mid ++ [Ev.click c]) = some (s2, [Out.challengeReady q0]) ∧
          s2.currentCategoryId = some c ∧ s2.currentQuestionIndex = 0 ∧
          s2.dialog.map Dialog.question = some q0 ∧ s2.storage = s.storage := by
  refine ⟨{ s with timers := s.timers ++ [Timer.remove d.id] }, ?_, rfl, ?_⟩
  · simp [step, hd, closeDialog]
  · intro mid hmid
    rcases hmid with rfl | rfl
    · have h := step_click_challenge env { s with timers := s.timers ++ [Timer.remove d.id] }
        c category q0 rest hcat hprot hq hng hnl
      rw [List.nil_append, run_single _ _ _ _ _ h]
      exact ⟨_, rfl, rfl, rfl, rfl, rfl⟩
    · have h1 : step env { s with timers := s.timers ++ [Timer.remove d.id] }
          (Ev.timeout s.timers.length) = some ({ s with dialog := none }, []) := by
        rw [step_timeout_last]
        simp [fire, removeDialog, hd]
      have h := step_click_challenge env { s with dialog := none }
        c category q0 rest hcat hprot hq hng hnl
      rw [List.singleton_append, run_cons _ _ _ _ _ _ h1, run_single _ _ _ _ _ h]
      exact ⟨_, rfl, rfl, rfl, rfl, rfl⟩

/-! ## A session of correct answers -/

theorem getElem?_after {α : Type} (done : List α) (x y : α) (rest : List α) :
    (done ++ x :: y :: rest)[done.length + 1]? = some y := by
  induction done with
  | nil => simp
  | cons z zs ih => simpa using ih

theorem answers_grant (env : Env) (c : String) (category : Category)
    (questions : List Question)
    (hcat : env.categories c = some category) (hq : category.questions = some questions) :
    ∀ (rest : List Question) (answers : List String) (q : Question) (done : List Question)
      (s : State) (d : Dialog),
      s.dialog = some d → d.question = q → s.currentCategoryId = some c →
      questions = done ++ q :: rest → s.currentQuestionIndex = done.length →
      List.Forall₂ (fun q a => trim a ≠ "" ∧ isCorrect env q (trim a) = true) (q :: rest) answers →
      ∃ s1 id, run env s (answers.map Ev.submit) = some (s1, rest.map Out.challengeReady) ∧
        s1.storage = removeItem (setItem s.storage (accessKey c) "granted") (attemptsKey c) ∧
        s1.timers = s.timers ++ [Timer.removeThenOpen id] ∧
        s1.currentCategoryId = some c := by
  intro rest
  induction rest with
  | nil =>
    intro answers q done s d hd hdq hc hqs hidx hans
    obtain ⟨a, as, ⟨hne, hok⟩, hnil, rfl⟩ := List.forall₂_cons_left_iff.1 hans
    have : as = [] := by simpa using hnil
    subst this
    subst hdq
    have hlast : questions.length ≤ s.currentQuestionIndex + 1 := by
      rw [hqs, hidx]
      simp
    have h := step_submit_grant env s d c category questions a hd hc hcat hq hne hok hlast
    rw [List.map_singleton, run_single _ _ _ _ _ h]
    exact ⟨_, d.id, rfl, rfl, rfl, hc⟩
  | cons q1 rest ih =>
    intro answers q done s d hd hdq hc hqs hidx hans
    obtain ⟨a, as, ⟨hne, hok⟩, htail, rfl⟩ := List.forall₂_cons_left_iff.1 hans
    subst hdq
    have hlt : s.currentQuestionIndex + 1 < questions.length := by
      rw [hqs, hidx]
      simp
    have hget : questions[s.currentQuestionIndex + 1] = q1 := by
      have h1 := getElem?_after done d.question q1 rest
      rw [← hqs, ← hidx, List.getElem?_eq_getElem hlt] at h1
      exact Option.some.inj h1
    have h := step_submit_next env s d c category questions a hd hc hcat hq hne hok hlt
    rw [hget] at h
    obtain ⟨s1, id, hrun, hst, htm, hc1⟩ := ih as q1 (done ++ [d.question])
      { s with
        currentQuestionIndex := s.currentQuestionIndex + 1,
        dialog := some { id := s.nextDialog, question := q1 },
        nextDialog := s.nextDialog + 1 }
      { id := s.nextDialog, question := q1 } rfl rfl hc (by simp [hqs]) (by simp [hidx]) htail
    rw [List.map_cons, run_cons _ _ _ _ _ _ h, hrun]
    exact ⟨s1, id, rfl, hst, htm, hc1⟩

/-- Claim C2. For a protected collection with a non-empty list of questions,
neither granted nor locked, whatever the stored count: a click on its tile
followed by a correct non-empty answer to every question in order presents the
questions one after the other and nothing else, stores `granted`, removes the
stored count (which then reads as 0), and schedules one timer whose run calls
`openGallery` once (accessGranted) for this collection. -/
theorem all_correct_grants (env : Env) (s : State) (c : String) (category : Category)
    (questions : List Question) (answers : List String)
    (hcat : env.categories c = some category) (hprot : category.isProtected = true)
    (hq : category.questions = some questions) (hne : questions ≠ [])
    (hng : getItem s.storage (accessKey c) ≠ some "granted")
    (hnl : jsGe (readAttempts s.storage c) (Num.ofInt category.maxAttempts) = false)
    (hans : List.Forall₂ (fun q a => trim a ≠ "" ∧ isCorrect env q (trim a) = true)
      questions answers) :
    ∃ s1 s2, run env s (Ev.click c :: answers.map Ev.submit)
          = some (s1, questions.map Out.challengeReady) ∧
      getItem s1.storage (accessKey c) = some "granted" ∧
      getItem s1.storage (attemptsKey c) = none ∧
      readAttempts s1.storage c = Num.fin 0 ∧
      (∃ id, s1.timers = s.timers ++ [Timer.removeThenOpen id]) ∧
      step env s1 (Ev.timeout s.timers.length) = some (s2, [Out.accessGranted c]) ∧
      s2.storage = s1.storage ∧ s2.timers = s.timers := by
  match questions, hne with
  | q0 :: rest, _ =>
    have h := step_click_challenge env s c category q0 rest hcat hprot hq hng hnl
    obtain ⟨s1, id, hrun, hst, htm, hc1⟩ := answers_grant env c category (q0 :: rest) hcat hq
      rest answers q0 []
      { s with
        currentCategoryId := some c,
        currentQuestionIndex := 0,
        dialog := some { id := s.nextDialog, question := q0 },
        nextDialog := s.nextDialog + 1 }
      { id := s.nextDialog, question := q0 } rfl rfl rfl rfl rfl hans
    have hrem : getItem s1.storage (attemptsKey c) = none := by
      rw [hst]
      exact getItem_removeItem_self _ _
    have hfire : step env s1 (Ev.timeout s.timers.length)
        = some ({ removeDialog { s1 with timers := s.timers } id with timers := s.timers },
            [Out.accessGranted c]) := by
      have : s1 = { { s1 with timers := s.timers } with
          timers := s.timers ++ [Timer.removeThenOpen id] } := by
        cases s1
        simp_all
      rw [this, step_timeout_last]
      simp only [fire, removeDialog]
      split
      · split <;> simp [openGallery, hc1, hcat]
      · simp [openGallery, hc1, hcat]
    refine ⟨s1, _, ?_, ?_, hrem, readAttempts_absent _ _ hrem, ⟨id, htm⟩, hfire, ?_, rfl⟩
    · rw [run_cons _ _ _ _ _ _ h, hrun]
      rfl
    · rw [hst, getItem_removeItem_of_ne _ (accessKey_ne_attemptsKey c c), getItem_setItem_self]
    · simp only [removeDialog]
      split
      · split <;> rfl
      · rfl

theorem removeDialog_fields (s : State) (n : Nat) :
    (removeDialog s n).storage = s.storage ∧
    (removeDialog s n).currentCategoryId = s.currentCategoryId ∧
    (removeDialog s n).currentQuestionIndex = s.currentQuestionIndex ∧
    (removeDialog s n).timers = s.timers ∧
    ((removeDialog s n).dialog = none ∨ (removeDialog s n).dialog = s.dialog) := by
  unfold removeDialog
  split
  · split
    · exact ⟨rfl, rfl, rfl, rfl, Or.inl rfl⟩
    · exact ⟨rfl, rfl, rfl, rfl, Or.inr rfl⟩
  · exact ⟨rfl, rfl, rfl, rfl, Or.inr rfl⟩

theorem sessionOk_of_eq (env : Env) (s s1 : State) (h : SessionOk env s)
    (hc : s1.currentCategoryId = s.currentCategoryId)
    (hd : s1.dialog = none ∨ s1.dialog = s.dialog) : SessionOk env s1 := by
  intro hne
  rcases hd with hd | hd
  · exact absurd hd hne
  · rw [hc]
    exact h (hd ▸ hne)

theorem step_click_sessionOk (env : Env) (s s1 : State) (c : String) (o1 : List Out)
    (hinv : SessionOk env s) (h : step env s (Ev.click c) = some (s1, o1)) :
    SessionOk env s1 ∧ ∀ q, Out.challengeReady q ∈ o1 → Presented env s1 q := by
  simp only [step, clickCategory] at h
  cases hcat : env.categories c with
  | none => simp [hcat] at h
  | some category =>
    simp only [hcat] at h
    by_cases hprot : category.isProtected = true
    · simp only [hprot, if_true, showProtectionDialog, hcat] at h
      cases hq : category.questions with
      | none =>
        simp only [hq, Option.some.injEq, Prod.mk.injEq] at h
        obtain ⟨rfl, rfl⟩ := h
        exact ⟨hinv, by simp⟩
      | some questions =>
        simp only [hq] at h
        by_cases hg : getItem s.storage (accessKey c) = some "granted"
        · simp only [hg, if_true, openGallery, hcat, Option.some.injEq, Prod.mk.injEq] at h
          obtain ⟨rfl, rfl⟩ := h
          exact ⟨hinv, by simp⟩
        · simp only [hg, if_false] at h
          by_cases hl : jsGe (readAttempts s.storage c) (Num.ofInt category.maxAttempts) = true
          · simp only [hl, if_true, Option.some.injEq, Prod.mk.injEq] at h
            obtain ⟨rfl, rfl⟩ := h
            exact ⟨hinv, by simp⟩
          · simp only [hl] at h
            cases hq0 : questions[0]? with
            | none => simp [hq0, showQuestionDialog] at h
            | some q0 =>
              simp only [hq0, showQuestionDialog, Option.some.injEq, Prod.mk.injEq] at h
              obtain ⟨rfl, rfl⟩ := h
              refine ⟨fun _ => ⟨c, category, questions, rfl, hcat, hq⟩, ?_⟩
              intro q hqm
              simp only [List.mem_singleton, Out.challengeReady.injEq] at hqm
              subst hqm
              have hlen : 0 < questions.length := by
                by_contra hcon
                have : questions = [] := by
                  cases questions with
                  | nil => rfl
                  | cons a b => simp at hcon
                simp [this] at hq0
              exact ⟨c, category, questions, rfl, hcat, hq, hlen, hq0, rfl⟩
    · simp only [hprot, openGallery, hcat, Option.some.injEq, Prod.mk.injEq] at h
      simp at h
      obtain ⟨rfl, rfl⟩ := h
      exact ⟨hinv, by simp⟩

theorem step_submit_sessionOk (env : Env) (s s1 : State) (raw : String) (o1 : List Out)
    (hinv : SessionOk env s) (h : step env s (Ev.submit raw) = some (s1, o1)) :
    SessionOk env s1 ∧ ∀ q, Out.challengeReady q ∈ o1 → Presented env s1 q := by
  cases hd : s.dialog with
  | none => simp [step, hd] at h
  | some d =>
    obtain ⟨c, category, questions, hc, hcat, hq⟩ := hinv (by simp [hd])
    by_cases hne : trim raw = ""
    · simp only [step, hd, checkAnswer, hne, if_true, Option.some.injEq, Prod.mk.injEq] at h
      obtain ⟨rfl, rfl⟩ := h
      exact ⟨hinv, by simp⟩
    · by_cases hok : isCorrect env d.question (trim raw) = true
      · by_cases hlast : questions.length ≤ s.currentQuestionIndex + 1
        · rw [step_submit_grant env s d c category questions raw hd hc hcat hq hne hok hlast] at h
          simp only [Option.some.injEq, Prod.mk.injEq] at h
          obtain ⟨rfl, rfl⟩ := h
          exact ⟨fun _ => ⟨c, category, questions, hc, hcat, hq⟩, by simp⟩
        · have hlt : s.currentQuestionIndex + 1 < questions.length := by omega
          rw [step_submit_next env s d c category questions raw hd hc hcat hq hne hok hlt] at h
          simp only [Option.some.injEq, Prod.mk.injEq] at h
          obtain ⟨rfl, rfl⟩ := h
          refine ⟨fun _ => ⟨c, category, questions, hc, hcat, hq⟩, ?_⟩
          intro q hqm
          simp only [List.mem_singleton, Out.challengeReady.injEq] at hqm
          subst hqm
          exact ⟨c, category, questions, hc, hcat, hq, hlt, List.getElem?_eq_getElem hlt, rfl⟩
      · have hwrong : isCorrect env d.question (trim raw) = false := by simpa using hok
        rw [step_submit_wrong env s d c category raw hd hc hcat hne hwrong] at h
        split at h
        · simp only [Option.some.injEq, Prod.mk.injEq] at h
          obtain ⟨rfl, rfl⟩ := h
          exact ⟨fun _ => ⟨c, category, questions, hc, hcat, hq⟩, by simp⟩
        · simp only [Option.some.injEq, Prod.mk.injEq] at h
          obtain ⟨rfl, rfl⟩ := h
          exact ⟨fun _ => ⟨c, category, questions, hc, hcat, hq⟩, by simp⟩

theorem step_close_eq (env : Env) (s s1 : State) (o1 : List Out)
    (h : step env s Ev.close = some (s1, o1)) :
    ∃ d, s.dialog = some d ∧ s1 = { s with timers := s.timers ++ [Timer.remove d.id] } ∧
      o1 = [] := by
  cases hd : s.dialog with
  | none => simp [step, hd] at h
  | some d =>
    simp only [step, hd, closeDialog, Option.some.injEq, Prod.mk.injEq] at h
    obtain ⟨rfl, rfl⟩ := h
    exact ⟨d, rfl, rfl, rfl⟩

theorem step_timeout_fields (env : Env) (s s1 : State) (n : Nat) (o1 : List Out)
    (h : step env s (Ev.timeout n) = some (s1, o1)) :
    s1.storage = s.storage ∧ s1.currentCategoryId = s.currentCategoryId ∧
    s1.currentQuestionIndex = s.currentQuestionIndex ∧
    (s1.dialog = none ∨ s1.dialog = s.dialog) ∧
    (o1 = [] ∨ ∃ c, o1 = [Out.accessGranted c]) := by
  simp only [step] at h
  cases ht : s.timers[n]? with
  | none => simp [ht] at h
  | some t =>
    simp only [ht] at h
    cases t with
    | remove d =>
      simp only [fire, Option.some.injEq, Prod.mk.injEq] at h
      obtain ⟨rfl, rfl⟩ := h
      obtain ⟨h1, h2, h3, _, h5⟩ := removeDialog_fields { s with timers := s.timers.eraseIdx n } d
      exact ⟨h1, h2, h3, h5, Or.inl rfl⟩
    | hideThenRemove d =>
      simp only [fire, Option.some.injEq, Prod.mk.injEq] at h
      obtain ⟨rfl, rfl⟩ := h
      exact ⟨rfl, rfl, rfl, Or.inr rfl, Or.inl rfl⟩
    | removeThenOpen d =>
      obtain ⟨h1, h2, h3, _, h5⟩ := removeDialog_fields { s with timers := s.timers.eraseIdx n } d
      simp only [fire, openGallery] at h
      split at h
      · simp at h
      · split at h
        · simp at h
        · simp only [Option.some.injEq, Prod.mk.injEq] at h
          obtain ⟨rfl, rfl⟩ := h
          exact ⟨h1, h2, h3, h5, Or.inr ⟨_, rfl⟩⟩

theorem step_sessionOk (env : Env) (s s1 : State) (e : Ev) (o1 : List Out)
    (hinv : SessionOk env s) (h : step env s e = some (s1, o1)) :
    SessionOk env s1 ∧ ∀ q, Out.challengeReady q ∈ o1 → Presented env s1 q := by
  cases e with
  | click c => exact step_click_sessionOk env s s1 c o1 hinv h
  | submit raw => exact step_submit_sessionOk env s s1 raw o1 hinv h
  | close =>
    obtain ⟨d, _, rfl, rfl⟩ := step_close_eq env s s1 o1 h
    exact ⟨sessionOk_of_eq env s _ hinv rfl (Or.inr rfl), by simp⟩
  | timeout n =>
    obtain ⟨_, h2, _, h4, h5⟩ := step_timeout_fields env s s1 n o1 h
    refine ⟨sessionOk_of_eq env s _ hinv h2 h4, ?_⟩
    rcases h5 with rfl | ⟨c, rfl⟩ <;> simp

theorem run_sessionOk (env : Env) : ∀ (evs : List Ev) (s s1 : State) (outs : List Out),
    SessionOk env s → run env s evs = some (s1, outs) → SessionOk env s1
  | [], s, s1, outs, hinv, h => by
    simp only [run, Option.some.injEq, Prod.mk.injEq] at h
    obtain ⟨rfl, rfl⟩ := h
    exact hinv
  | e :: es, s, s1, outs, hinv, h => by
    cases hstep : step env s e with
    | none => simp [run, hstep] at h
    | some r =>
      obtain ⟨s2, o2⟩ := r
      rw [run_cons env s s2 e es o2 hstep] at h
      cases hrest : run env s2 es with
      | none => simp [hrest] at h
      | some r2 =>
        obtain ⟨s3, o3⟩ := r2
        simp only [hrest, Option.map_some', Option.some.injEq, Prod.mk.injEq] at h
        obtain ⟨rfl, rfl⟩ := h
        exact run_sessionOk env es s2 s3 o3 (step_sessionOk env s s2 e o2 hinv hstep).1 hrest

theorem step_submit_isSome (env : Env) (s : State) (raw : String)
    (hinv : SessionOk env s) (hd : s.dialog ≠ none) :
    (step env s (Ev.submit raw)).isSome = true := by
  obtain ⟨c, category, questions, hc, hcat, hq⟩ := hinv hd
  cases hdd : s.dialog with
  | none => exact absurd hdd hd
  | some d =>
    by_cases hne : trim raw = ""
    · simp [step, hdd, checkAnswer, hne]
    · by_cases hok : isCorrect env d.question (trim raw) = true
      · by_cases hlast : questions.length ≤ s.currentQuestionIndex + 1
        · rw [step_submit_grant env s d c category questions raw hdd hc hcat hq hne hok hlast]
          rfl
        · rw [step_submit_next env s d c category questions raw hdd hc hcat hq hne hok
            (by omega)]
          rfl
      · have hwrong : isCorrect env d.question (trim raw) = false := by simpa using hok
        rw [step_submit_wrong env s d c category raw hdd hc hcat hne hwrong]
        split <;> rfl

theorem step_click_isSome (env : Env) (s : State) (c : String) (category : Category)
    (q0 : Question) (rest : List Question)
    (hcat : env.categories c = some category) (hq : category.questions = some (q0 :: rest)) :
    (step env s (Ev.click c)).isSome = true := by
  simp only [step, clickCategory, hcat, showProtectionDialog, hq, openGallery]
  split
  · split
    · rfl
    · split
      · rfl
      · simp [showQuestionDialog]
  · rfl

/-- Claim C10. After any sequence of events from a freshly loaded page, every
question which a further event presents is the entry of the list of the
current category at the current question index, which is below the length of
the list, and it is the question of the dialog then open; moreover an answer
to an open dialog never fails, and a click on the tile of a collection with a
non-empty list never fails, so no undefined question is ever presented. -/
theorem presented_question_in_range (env : Env) (storage : Storage) (evs : List Ev)
    (s : State) (outs : List Out)
    (hrun : run env (State.load storage) evs = some (s, outs)) :
    (∀ e s1 o1 q, step env s e = some (s1, o1) → Out.challengeReady q ∈ o1 →
      ∃ c category questions, s1.currentCategoryId = some c ∧
        env.categories c = some category ∧ category.questions = some questions ∧
        s1.currentQuestionIndex < questions.length ∧
        questions[s1.currentQuestionIndex]? = some q ∧
        s1.dialog.map Dialog.question = some q) ∧
    (∀ raw, s.dialog ≠ none → (step env s (Ev.submit raw)).isSome = true) ∧
    (∀ c category q0 rest, env.categories c = some category →
      category.questions = some (q0 :: rest) → (step env s (Ev.click c)).isSome = true) := by
  have hload : SessionOk env (State.load storage) := fun h => absurd rfl h
  have hinv := run_sessionOk env evs _ s outs hload hrun
  exact ⟨fun e s1 o1 q hstep hq => (step_sessionOk env s s1 e o1 hinv hstep).2 q hq,
    fun raw hd => step_submit_isSome env s raw hinv hd,
    fun c category q0 rest hcat hq => step_click_isSome env s c category q0 rest hcat hq⟩

/-! ## Sessions of wrong answers -/

theorem step_click_storage (env : Env) (s s1 : State) (c : String) (o1 : List Out)
    (h : step env s (Ev.click c) = some (s1, o1)) : s1.storage = s.storage := by
  simp only [step, clickCategory, showProtectionDialog, openGallery, showQuestionDialog] at h
  repeat' split at h
  all_goals first
    | (simp only [Option.some.injEq, Prod.mk.injEq] at h
       obtain ⟨rfl, rfl⟩ := h
       rfl)
    | simp at h

theorem step_granted_mono (env : Env) (s s1 : State) (e : Ev) (o1 : List Out) (c : String)
    (hg : getItem s.storage (accessKey c) = some "granted")
    (h : step env s e = some (s1, o1)) :
    getItem s1.storage (accessKey c) = some "granted" := by
  cases e with
  | click c2 => rw [step_click_storage env s s1 c2 o1 h]; exact hg
  | close =>
    obtain ⟨d, _, rfl, rfl⟩ := step_close_eq env s s1 o1 h
    exact hg
  | timeout n =>
    obtain ⟨h1, _⟩ := step_timeout_fields env s s1 n o1 h
    rw [h1]
    exact hg
  | submit raw =>
    cases hd : s.dialog with
    | none => simp [step, hd] at h
    | some d =>
      by_cases hne : trim raw = ""
      · simp only [step, hd, checkAnswer, hne, if_true, Option.some.injEq, Prod.mk.injEq] at h
        obtain ⟨rfl, rfl⟩ := h
        exact hg
      · cases hc : s.currentCategoryId with
        | none =>
          simp only [step, hd, checkAnswer, hne, if_false, hc] at h
          split at h <;> simp at h
        | some c2 =>
          cases hcat : env.categories c2 with
          | none =>
            simp only [step, hd, checkAnswer, hne, if_false, hc, hcat] at h
            split at h <;> simp at h
          | some category =>
            by_cases hok : isCorrect env d.question (trim raw) = true
            · cases hq : category.questions with
              | none =>
                simp [step, hd, checkAnswer, hne, hc, hcat, hok, hq] at h
              | some questions =>
                by_cases hlast : questions.length ≤ s.currentQuestionIndex + 1
                · rw [step_submit_grant env s d c2 category questions raw hd hc hcat hq hne hok
                    hlast] at h
                  simp only [Option.some.injEq, Prod.mk.injEq] at h
                  obtain ⟨rfl, rfl⟩ := h
                  simp only
                  rw [getItem_removeItem_of_ne _ (accessKey_ne_attemptsKey c c2)]
                  by_cases hkey : accessKey c = accessKey c2
                  · rw [hkey, getItem_setItem_self]
                  · rw [getItem_setItem_of_ne _ _ hkey]
                    exact hg
                · rw [step_submit_next env s d c2 category questions raw hd hc hcat hq hne hok
                    (by omega)] at h
                  simp only [Option.some.injEq, Prod.mk.injEq] at h
                  obtain ⟨rfl, rfl⟩ := h
                  exact hg
            · have hwrong : isCorrect env d.question (trim raw) = false := by simpa using hok
              rw [step_submit_wrong env s d c2 category raw hd hc hcat hne hwrong] at h
              split at h
              · simp only [Option.some.injEq, Prod.mk.injEq] at h
                obtain ⟨rfl, rfl⟩ := h
                simp only
                rw [getItem_setItem_of_ne _ _ (accessKey_ne_attemptsKey c c2)]
                exact hg
              · simp only [Option.some.injEq, Prod.mk.injEq] at h
                obtain ⟨rfl, rfl⟩ := h
                simp only
                rw [getItem_setItem_of_ne _ _ (accessKey_ne_attemptsKey c c2)]
                exact hg

theorem run_granted_mono (env : Env) (c : String) :
    ∀ (evs : List Ev) (s s1 : State) (outs : List Out),
      getItem s.storage (accessKey c) = some "granted" →
      run env s evs = some (s1, outs) →
      getItem s1.storage (accessKey c) = some "granted"
  | [], s, s1, outs, hg, h => by
    simp only [run, Option.some.injEq, Prod.mk.injEq] at h
    obtain ⟨rfl, rfl⟩ := h
    exact hg
  | e :: es, s, s1, outs, hg, h => by
    cases hstep : step env s e with
    | none => simp [run, hstep] at h
    | some r =>
      obtain ⟨s2, o2⟩ := r
      rw [run_cons env s s2 e es o2 hstep] at h
      cases hrest : run env s2 es with
      | none => simp [hrest] at h
      | some r2 =>
        obtain ⟨s3, o3⟩ := r2
        simp only [hrest, Option.map_some', Option.some.injEq, Prod.mk.injEq] at h
        obtain ⟨rfl, rfl⟩ := h
        exact run_granted_mono env c es s2 s3 o3
          (step_granted_mono env s s2 e o2 c hg hstep) hrest

theorem wrongAnswers_cons (env : Env) (s s1 : State) (e : Ev) (es : List Ev) (o1 : List Out)
    (h : step env s e = some (s1, o1)) :
    wrongAnswers env s (e :: es)
      = (if isWrongAnswer env s e = true then 1 else 0) + wrongAnswers env s1 es := by
  simp only [wrongAnswers, h]

theorem step_session (env : Env) (c : String) (category : Category)
    (questions : List Question) (hcat : env.categories c = some category)
    (hprot : category.isProtected = true) (hq : category.questions = some questions)
    (hpos : 0 < category.maxAttempts) (hmax : category.maxAttempts ≤ 2 ^ 53)
    (s s1 : State) (k : Int) (e : Ev) (o1 : List Out)
    (hk0 : 0 ≤ k) (hinv : Failing c k s) (he : SessionEvent c e)
    (h : step env s e = some (s1, o1))
    (hng : getItem s1.storage (accessKey c) ≠ some "granted")
    (hbound : k + (if isWrongAnswer env s e = true then 1 else 0 : Nat) ≤ 2 ^ 53) :
    Failing c (k + (if isWrongAnswer env s e = true then 1 else 0 : Nat)) s1 ∧
      o1.filter isVerdict = (List.range (if isWrongAnswer env s e = true then 1 else 0)).map
        (fun (j : Nat) => expectedVerdict category.maxAttempts (k + (j : Int) + 1)) := by
  obtain ⟨hdlg, hk⟩ := hinv
  have hng0 : getItem s.storage (accessKey c) ≠ some "granted" :=
    fun hg => hng (step_granted_mono env s s1 e o1 c hg h)
  rcases he with rfl | rfl | ⟨n, rfl⟩ | ⟨raw, rfl⟩
  · have hw : isWrongAnswer env s (Ev.click c) = false := rfl
    simp only [hw, Bool.false_eq_true, if_false, Nat.cast_zero, Int.add_zero, List.range_zero,
      List.map_nil]
    by_cases hl : jsGe (readAttempts s.storage c) (Num.ofInt category.maxAttempts) = true
    · rw [step_click_denied env s c category _ hcat hprot hq hng0 hl] at h
      simp only [Option.some.injEq, Prod.mk.injEq] at h
      obtain ⟨rfl, rfl⟩ := h
      exact ⟨⟨hdlg, hk⟩, rfl⟩
    · have hnl : jsGe (readAttempts s.storage c) (Num.ofInt category.maxAttempts) = false := by
        simpa using hl
      cases questions with
      | nil =>
        simp [step, clickCategory, hcat, hprot, showProtectionDialog, hq, hng0, hnl,
          showQuestionDialog] at h
      | cons q0 more =>
        rw [step_click_challenge env s c category q0 more hcat hprot hq hng0 hnl] at h
        simp only [Option.some.injEq, Prod.mk.injEq] at h
        obtain ⟨rfl, rfl⟩ := h
        exact ⟨⟨fun _ => rfl, hk⟩, rfl⟩
  · have hw : isWrongAnswer env s Ev.close = false := rfl
    simp only [hw, Bool.false_eq_true, if_false, Nat.cast_zero, Int.add_zero, List.range_zero,
      List.map_nil]
    obtain ⟨d, _, rfl, rfl⟩ := step_close_eq env s s1 o1 h
    exact ⟨⟨hdlg, hk⟩, rfl⟩
  · have hw : isWrongAnswer env s (Ev.timeout n) = false := rfl
    simp only [hw, Bool.false_eq_true, if_false, Nat.cast_zero, Int.add_zero, List.range_zero,
      List.map_nil]
    obtain ⟨h1, h2, _, h4, h5⟩ := step_timeout_fields env s s1 n o1 h
    refine ⟨⟨?_, by rw [h1]; exact hk⟩, ?_⟩
    · intro hd
      rcases h4 with h4 | h4
      · exact absurd h4 hd
      · rw [h2]
        exact hdlg (h4 ▸ hd)
    · rcases h5 with rfl | ⟨c2, rfl⟩ <;> rfl
  · cases hd : s.dialog with
    | none => simp [step, hd] at h
    | some d =>
      have hc : s.currentCategoryId = some c := hdlg (by simp [hd])
      by_cases hne : trim raw = ""
      · have hw : isWrongAnswer env s (Ev.submit raw) = false := by
          simp [isWrongAnswer, hd, hne]
        simp only [hw, Bool.false_eq_true, if_false, Nat.cast_zero, Int.add_zero,
          List.range_zero, List.map_nil]
        simp only [step, hd, checkAnswer, hne, if_true, Option.some.injEq, Prod.mk.injEq] at h
        obtain ⟨rfl, rfl⟩ := h
        exact ⟨⟨hdlg, hk⟩, rfl⟩
      · by_cases hok : isCorrect env d.question (trim raw) = true
        · have hw : isWrongAnswer env s (Ev.submit raw) = false := by
            simp [isWrongAnswer, hd, hok]
          simp only [hw, Bool.false_eq_true, if_false, Nat.cast_zero, Int.add_zero,
            List.range_zero, List.map_nil]
          by_cases hlast : questions.length ≤ s.currentQuestionIndex + 1
          · rw [step_submit_grant env s d c category questions raw hd hc hcat hq hne hok hlast]
              at h
            simp only [Option.some.injEq, Prod.mk.injEq] at h
            obtain ⟨rfl, rfl⟩ := h
            exfalso
            apply hng
            simp only
            rw [getItem_removeItem_of_ne _ (accessKey_ne_attemptsKey c c), getItem_setItem_self]
          · rw [step_submit_next env s d c category questions raw hd hc hcat hq hne hok
              (by omega)] at h
            simp only [Option.some.injEq, Prod.mk.injEq] at h
            obtain ⟨rfl, rfl⟩ := h
            exact ⟨⟨fun _ => hc, hk⟩, rfl⟩
        · have hwrong : isCorrect env d.question (trim raw) = false := by simpa using hok
          have hw : isWrongAnswer env s (Ev.submit raw) = true := by
            simp [isWrongAnswer, hd, hne, hwrong]
          simp only [hw, if_true, Nat.cast_one] at hbound ⊢
          have hk1 : (k + 1).natAbs ≤ 2 ^ 53 := by omega
          have hm : category.maxAttempts.natAbs ≤ 2 ^ 53 := by omega
          have hrem : (category.maxAttempts - (k + 1)).natAbs ≤ 2 ^ 53 := by omega
          rw [step_submit_wrong env s d c category raw hd hc hcat hne hwrong, hk,
            jsAdd_fin_one k hk1, jsSub_ofInt_fin _ _ hm hrem, jsLe_fin] at h
          have hread := readAttempts_setItem s.storage c (k + 1) hk1
          split at h
          · next hlock =>
            simp only [Option.some.injEq, Prod.mk.injEq] at h
            obtain ⟨rfl, rfl⟩ := h
            refine ⟨⟨hdlg, hread⟩, ?_⟩
            simp only [decide_eq_true_eq] at hlock
            have : ¬ (k + 1 < category.maxAttempts) := by omega
            simp [isVerdict, expectedVerdict, this, List.range_succ]
          · next hlock =>
            simp only [Option.some.injEq, Prod.mk.injEq] at h
            obtain ⟨rfl, rfl⟩ := h
            refine ⟨⟨hdlg, hread⟩, ?_⟩
            simp only [decide_eq_true_eq] at hlock
            have : k + 1 < category.maxAttempts := by omega
            simp [isVerdict, expectedVerdict, this, List.range_succ]

theorem map_range_add (f : Int → Out) (k : Int) (a b : Nat) :
    (List.range (a + b)).map (fun (j : Nat) => f (k + (j : Int) + 1)) =
      (List.range a).map (fun (j : Nat) => f (k + (j : Int) + 1)) ++
      (List.range b).map (fun (j : Nat) => f (k + (a : Int) + (j : Int) + 1)) := by
  rw [List.range_add, List.map_append, List.map_map]
  congr 1
  apply List.map_congr_left
  intro j _
  simp only [Function.comp]
  congr 1
  push_cast
  omega

theorem run_session (env : Env) (c : String) (category : Category)
    (questions : List Question) (hcat : env.categories c = some category)
    (hprot : category.isProtected = true) (hq : category.questions = some questions)
    (hpos : 0 < category.maxAttempts) (hmax : category.maxAttempts ≤ 2 ^ 53) :
    ∀ (evs : List Ev) (s s1 : State) (k : Int) (outs : List Out),
      0 ≤ k → Failing c k s → (∀ e ∈ evs, SessionEvent c e) →
      run env s evs = some (s1, outs) →
      getItem s1.storage (accessKey c) ≠ some "granted" →
      k + wrongAnswers env s evs ≤ 2 ^ 53 →
      Failing c (k + wrongAnswers env s evs) s1 ∧
        outs.filter isVerdict = (List.range (wrongAnswers env s evs)).map
          (fun (j : Nat) => expectedVerdict category.maxAttempts (k + (j : Int) + 1))
  | [], s, s1, k, outs, _, hinv, _, h, _, _ => by
    simp only [run, Option.some.injEq, Prod.mk.injEq] at h
    obtain ⟨rfl, rfl⟩ := h
    exact ⟨by simpa [wrongAnswers] using hinv, rfl⟩
  | e :: es, s, s1, k, outs, hk0, hinv, hevs, h, hng, hbound => by
    cases hstep : step env s e with
    | none => simp [run, hstep] at h
    | some r =>
      obtain ⟨s2, o2⟩ := r
      rw [run_cons env s s2 e es o2 hstep] at h
      cases hrest : run env s2 es with
      | none => simp [hrest] at h
      | some r2 =>
        obtain ⟨s3, o3⟩ := r2
        simp only [hrest, Option.map_some', Option.some.injEq, Prod.mk.injEq] at h
        obtain ⟨rfl, rfl⟩ := h
        rw [wrongAnswers_cons env s s2 e es o2 hstep] at hbound ⊢
        have hng2 : getItem s2.storage (accessKey c) ≠ some "granted" :=
          fun hg => hng (run_granted_mono env c es s2 s3 o3 hg hrest)
        obtain ⟨hinv2, ho2⟩ := step_session env c category questions hcat hprot hq hpos hmax
          s s2 k e o2 hk0 hinv (hevs e (List.mem_cons_self _ _)) hstep hng2
          (by push_cast at hbound ⊢; omega)
        obtain ⟨hinv3, ho3⟩ := run_session env c category questions hcat hprot hq hpos hmax
          es s2 s3 _ o3 (by omega) hinv2 (fun x hx => hevs x (List.mem_cons_of_mem _ hx))
          hrest hng (by push_cast at hbound ⊢; omega)
        refine ⟨?_, ?_⟩
        · have : k + ((if isWrongAnswer env s e = true then 1 else 0 : Nat) : Int)
              + (wrongAnswers env s2 es : Int)
              = k + (((if isWrongAnswer env s e = true then 1 else 0)
                  + wrongAnswers env s2 es : Nat) : Int) := by
            push_cast
            omega
          rw [← this]
          exact hinv3
        · rw [List.filter_append, ho2, ho3,
            map_range_add (expectedVerdict category.maxAttempts)]

/-- Claim C1, as amended. For a protected collection with
`0 < maxAttempts ≤ 2 ^ 53` whose stored count reads as the number `k ≥ 0`, and
any sequence of clicks on its tile, closings, timers and answers, starting
with no dialog open, after which the collection is not granted (so that no
grant happened on the way) and in which the count stays within `2 ^ 53`: the
stored count ends at `k` plus the number of non-empty wrong answers, to
whichever question they were given; the `j`-th of them is met by
incorrectAnswer with `maxAttempts - (k + j)` while `k + j < maxAttempts` and by
lockedOut from the one which brings the count to `maxAttempts` on; and once
the count has reached `maxAttempts` a click on the tile shows accessDenied and
changes nothing, so no question is presented. -/
theorem lockout_after_max_wrong (env : Env) (s : State) (c : String) (category : Category)
    (questions : List Question) (k : Int) (evs : List Ev) (s1 : State) (outs : List Out)
    (hcat : env.categories c = some category) (hprot : category.isProtected = true)
    (hq : category.questions = some questions)
    (hpos : 0 < category.maxAttempts) (hmax : category.maxAttempts ≤ 2 ^ 53)
    (hidle : s.dialog = none)
    (hk : readAttempts s.storage c = Num.fin k) (hk0 : 0 ≤ k)
    (hevs : ∀ e ∈ evs, SessionEvent c e)
    (hrun : run env s evs = some (s1, outs))
    (hng : getItem s1.storage (accessKey c) ≠ some "granted")
    (hbound : k + wrongAnswers env s evs ≤ 2 ^ 53) :
    readAttempts s1.storage c = Num.fin (k + wrongAnswers env s evs) ∧
    outs.filter isVerdict = (List.range (wrongAnswers env s evs)).map
      (fun (j : Nat) => expectedVerdict category.maxAttempts (k + (j : Int) + 1)) ∧
    (category.maxAttempts ≤ k + wrongAnswers env s evs →
      step env s1 (Ev.click c) = some (s1, [Out.accessDenied])) := by
  have hinv : Failing c k s := ⟨fun hd => absurd hidle hd, hk⟩
  obtain ⟨⟨_, hk1⟩, houts⟩ := run_session env c category questions hcat hprot hq hpos hmax
    evs s s1 k outs hk0 hinv hevs hrun hng hbound
  refine ⟨hk1, houts, ?_⟩
  intro hfull
  apply step_click_denied env s1 c category _ hcat hprot hq hng
  rw [hk1, ofInt_of_small _ (by omega)]
  simpa [jsGe, jsLe_fin] using hfull

theorem lockout_after_max_wrong_witness :
    readAttempts tripLocked.storage "trip" = Num.fin 2 ∧
    [Out.challengeReady cityQuestion, Out.challengeReady rangeQuestion,
        Out.incorrectAnswer (Num.fin 1), Out.lockedOut].filter isVerdict
      = [expectedVerdict 2 1, expectedVerdict 2 2] ∧
    step tripEnv tripLocked (Ev.click "trip") = some (tripLocked, [Out.accessDenied]) := by
  have h := lockout_after_max_wrong tripEnv (State.load []) "trip" tripCategory
    [cityQuestion, rangeQuestion] 0
    [Ev.click "trip", Ev.submit "paris", Ev.submit "alps", Ev.submit "Andes"]
    tripLocked
    [Out.challengeReady cityQuestion, Out.challengeReady rangeQuestion,
      Out.incorrectAnswer (Num.fin 1), Out.lockedOut]
    (by decide) (by decide) (by decide) (by decide) (by decide) (by decide) (by decide)
    (by decide)
    (by
      intro e he
      simp only [List.mem_cons, List.mem_singleton, List.not_mem_nil, or_false] at he
      rcases he with rfl | rfl | rfl | rfl
      · exact Or.inl rfl
      · exact Or.inr (Or.inr (Or.inr ⟨_, rfl⟩))
      · exact Or.inr (Or.inr (Or.inr ⟨_, rfl⟩))
      · exact Or.inr (Or.inr (Or.inr ⟨_, rfl⟩)))
    (by decide) (by decide) (by decide)
  have hw : wrongAnswers tripEnv (State.load [])
      [Ev.click "trip", Ev.submit "paris", Ev.submit "alps", Ev.submit "Andes"] = 2 := by
    decide
  rw [hw] at h
  exact ⟨h.1, h.2.1, h.2.2 (by decide)⟩

/-- Claim C1, as stated, fails on the code. Collection `patient` with
`2 ^ 53 + 2` attempts, not granted, and the stored count `9007199254740992`,
which is `2 ^ 53` and below the limit: every wrong answer stores the same
count again, since `2 ^ 53 + 1` is not a double, and is met by incorrectAnswer
with 2 attempts left; the second wrong answer, which the claim has bring the
count to `maxAttempts` and end in lockedOut, does not, nor does any later
one. -/
theorem lockout_missed_beyond_exact_range :
    readAttempts (State.load [("gallery_attempts_patient", "9007199254740992")]).storage
        "patient" = Num.fin 9007199254740992 ∧
    (9007199254740992 : Int) < patientCategory.maxAttempts ∧
    run patientEnv (State.load [("gallery_attempts_patient", "9007199254740992")])
        [Ev.click "patient", Ev.submit "Rome", Ev.submit "Oslo", Ev.submit "Bern"]
      = some (patientAsked [("gallery_attempts_patient", "9007199254740992")],
          [Out.challengeReady cityQuestion, Out.incorrectAnswer (Num.fin 2),
            Out.incorrectAnswer (Num.fin 2), Out.incorrectAnswer (Num.fin 2)]) ∧
    expectedVerdict patientCategory.maxAttempts (9007199254740992 + 2) = Out.lockedOut := by
  decide

/-- Claim C4, evaluated on the code. Collection `family`, three attempts, one
question. Three wrong answers end in lockedOut, with the count at 3 and no
grant stored; the dialog is still in the document, for 2000 ms, and the
correct answer submitted then stores `granted`, after which the timer of that
answer calls `openGallery`. -/
theorem lockout_window_grants :
    run familyEnv (State.load [])
        [Ev.click "family", Ev.submit "London", Ev.submit "london", Ev.submit "rome"]
      = some (familyLocked,
          [Out.challengeReady cityQuestion, Out.incorrectAnswer (Num.fin 2),
            Out.incorrectAnswer (Num.fin 1), Out.lockedOut]) ∧
    getItem familyLocked.storage (accessKey "family") = none ∧
    jsGe (readAttempts familyLocked.storage "family") (Num.ofInt familyCategory.maxAttempts) = true ∧
    (run familyEnv familyLocked [Ev.submit "Paris", Ev.timeout 1]).map
        (fun r => (getItem r.1.storage (accessKey "family"), r.2))
      = some (some "granted", [Out.accessGranted "family"]) := by
  decide

/-- Claim C5, evaluated on the code. Collection `family`, three attempts, with
the stored count `abc`. The click presents the question; each of four wrong
answers is met by incorrectAnswer with `NaN` attempts left, never by
lockedOut; the stored count becomes `NaN`; after closing, a further click
presents the question again. -/
theorem non_numeric_count_never_locks :
    (run familyEnv (State.load [("gallery_attempts_family", "abc")])
        [Ev.click "family", Ev.submit "London", Ev.submit "london", Ev.submit "rome",
          Ev.submit "oslo", Ev.close, Ev.click "family"]).map
        (fun r => (getItem r.1.storage (attemptsKey "family"), r.2))
      = some (some "NaN",
          [Out.challengeReady cityQuestion, Out.incorrectAnswer Num.nan, Out.incorrectAnswer Num.nan,
            Out.incorrectAnswer Num.nan, Out.incorrectAnswer Num.nan, Out.challengeReady cityQuestion]) := by
  decide

theorem all_correct_grants_witness :
    ∃ s1 s2, run familyEnv (State.load [("gallery_attempts_family", "2")])
          (Ev.click "family" :: [" paris"].map Ev.submit)
          = some (s1, [cityQuestion].map Out.challengeReady) ∧
      getItem s1.storage (accessKey "family") = some "granted" ∧
      getItem s1.storage (attemptsKey "family") = none ∧
      readAttempts s1.storage "family" = Num.fin 0 ∧
      (∃ id, s1.timers = (State.load [("gallery_attempts_family", "2")]).timers
        ++ [Timer.removeThenOpen id]) ∧
      step familyEnv s1 (Ev.timeout (State.load [("gallery_attempts_family", "2")]).timers.length)
        = some (s2, [Out.accessGranted "family"]) ∧
      s2.storage = s1.storage ∧
      s2.timers = (State.load [("gallery_attempts_family", "2")]).timers :=
  all_correct_grants familyEnv (State.load [("gallery_attempts_family", "2")]) "family"
    familyCategory [cityQuestion] [" paris"] (by decide) (by decide) (by decide) (by decide)
    (by decide) (by decide) (List.Forall₂.cons ⟨by decide, by decide⟩ List.Forall₂.nil)

theorem answer_comparison_witness :
    ∃ s1, step familyEnv (familyAsked []) (Ev.submit " paris ") = some (s1, []) ∧
      s1.currentQuestionIndex = 1 := by
  obtain ⟨s1, outs, h1, h2, _⟩ := answer_comparison familyEnv (familyAsked [])
    { id := 0, question := cityQuestion } "family" familyCategory [cityQuestion] " paris "
    (by decide) (by decide) (by decide) (by decide) (by decide)
  have hs : step familyEnv (familyAsked []) (Ev.submit " paris ")
      = some ({ familyAsked [("gallery_access_family", "granted")] with
                currentQuestionIndex := 1, timers := [Timer.removeThenOpen 0] }, []) := by
    decide
  rw [hs] at h1
  simp only [Option.some.injEq, Prod.mk.injEq] at h1
  obtain ⟨rfl, rfl⟩ := h1
  exact ⟨_, hs, (h2 (by decide)).1⟩

theorem blank_answer_rejected_witness :
    step familyEnv (familyAsked [("gallery_attempts_family", "2")]) (Ev.submit " \t ")
      = some (familyAsked [("gallery_attempts_family", "2")], [Out.provideAnswer]) :=
  blank_answer_rejected familyEnv _ { id := 0, question := cityQuestion } " \t "
    (by decide) (by decide)

theorem abandon_restarts_witness :
    ∃ s1, step familyEnv (familyAsked [("gallery_attempts_family", "2")]) Ev.close
        = some (s1, []) ∧
      s1.storage = (familyAsked [("gallery_attempts_family", "2")]).storage ∧
      ∀ mid, mid = [] ∨
          mid = [Ev.timeout (familyAsked [("gallery_attempts_family", "2")]).timers.length] →
        ∃ s2, run familyEnv s1 (mid ++ [Ev.click "family"])
            = some (s2, [Out.challengeReady cityQuestion]) ∧
          s2.currentCategoryId = some "family" ∧ s2.currentQuestionIndex = 0 ∧
          s2.dialog.map Dialog.question = some cityQuestion ∧
          s2.storage = (familyAsked [("gallery_attempts_family", "2")]).storage :=
  abandon_restarts familyEnv (familyAsked [("gallery_attempts_family", "2")])
    { id := 0, question := cityQuestion } "family" familyCategory cityQuestion []
    (by decide) (by decide) (by decide) (by decide) (by decide) (by decide)

theorem presented_question_in_range_witness :
    (step familyEnv (familyAsked []) (Ev.submit "Rome")).isSome = true ∧
    (step familyEnv (familyAsked []) (Ev.click "family")).isSome = true :=
  have h := presented_question_in_range familyEnv [] [Ev.click "family"] (familyAsked [])
    [Out.challengeReady cityQuestion] (by decide)
  ⟨h.2.1 "Rome" (by decide), h.2.2 "family" familyCategory cityQuestion [] (by decide) (by decide)⟩

end GalleryProtection
